import Mathlib

/-!
Verification of the drone-delivery assignment-and-routing engine.

This development embeds, in Lean, the core classes of the repository:
the `Drone` model (feasibility predicate `canCarryOrder`, the mutating
`assignOrder`, the priority-weighted nearest-neighbour `optimizeRoute`,
`calculateRouteDistance`) and the static `OptimizationAlgorithm` class
(the four optimization strategies, greedy assignment, k-means style
clustering, and the 2-opt route improver).

Modelling conventions:
* JS numbers are modelled as real numbers (`ℝ`); `Math.sqrt` is `Real.sqrt`,
  `Math.min` is `min`, `Math.floor` is `Int.floor`.
* Mutation is modelled by explicit state passing: a method that mutates a
  drone or an order returns the updated value.  JS aliasing (the same order
  object living in the caller's array and in `drone.assignedOrders`) is
  modelled by updating the caller's list at the matching order id.
* `Math.random()` has no counterpart in a pure embedding; the random draws
  consumed by `clusterOrdersByDistance` are passed in explicitly as a
  stream `rnd : ℕ → ℕ` of draw results (`rnd i % orders.length` plays the
  role of `Math.floor(Math.random() * orders.length)` for the i-th draw).
* `new Date()` timestamps are modelled by a parameter `now : ℝ`
  (milliseconds), with `createdAt : ℝ` a field of the order.
-/

noncomputable section

open Classical

/-- 2D point `{x, y}`. -/
structure Point where
  x : ℝ
  y : ℝ
deriving DecidableEq

/-- Euclidean distance, the shared body of `Drone.calculateDistance` and
`OptimizationAlgorithm.calculateDistance`:
`Math.sqrt(dx*dx + dy*dy)` for `dx = p2.x - p1.x`, `dy = p2.y - p1.y`. -/
def calculateDistance (p1 p2 : Point) : ℝ :=
  Real.sqrt ((p2.x - p1.x) * (p2.x - p1.x) + (p2.y - p1.y) * (p2.y - p1.y))

/-- Order priorities `'alta' | 'media' | 'baixa'`. -/
inductive Priority where
  | alta
  | media
  | baixa
deriving DecidableEq

/-- Order statuses `'pending' | 'assigned' | 'delivered' | 'cancelled'`. -/
inductive OrderStatus where
  | pending
  | assigned
  | delivered
  | cancelled
deriving DecidableEq

/-- Drone statuses `'idle' | 'loading' | 'flying' | 'delivering' | 'returning'`. -/
inductive DroneStatus where
  | idle
  | loading
  | flying
  | delivering
  | returning
deriving DecidableEq

/-- The `Order` model (the fields used by the engine). -/
structure Order where
  id : ℕ
  location : Point
  weight : ℝ
  priority : Priority
  status : OrderStatus
  createdAt : ℝ
  assignedDrone : Option ℕ
deriving DecidableEq

/-- `Order.getWaitingTime`: `Math.floor((now - createdAt) / (1000 * 60))`, minutes. -/
def Order.getWaitingTime (o : Order) (now : ℝ) : ℤ :=
  ⌊(now - o.createdAt) / (1000 * 60)⌋

/-- The `Drone` model (the fields used by the engine). -/
structure Drone where
  id : ℕ
  capacity : ℝ
  range : ℝ
  currentLoad : ℝ
  battery : ℝ
  position : Point
  status : DroneStatus
  assignedOrders : List Order
  basePosition : Point
deriving DecidableEq

/-- `Drone.calculateBatteryNeeded(distance)`: `Math.min(100, distance * 5)`. -/
def calculateBatteryNeeded (distance : ℝ) : ℝ :=
  min 100 (distance * 5)

/-- `Drone.canCarryOrder(order)`: load, round-trip range and battery checks. -/
def canCarryOrder (d : Drone) (o : Order) : Prop :=
  let newLoad := d.currentLoad + o.weight
  let distanceToOrder := calculateDistance d.position o.location
  let distanceToBase := calculateDistance o.location d.basePosition
  let totalDistance := distanceToOrder + distanceToBase
  newLoad ≤ d.capacity ∧
    totalDistance ≤ d.range ∧
    d.battery ≥ calculateBatteryNeeded totalDistance

/-- `Drone.assignOrder(order)`.  Returns the boolean result together with the
updated drone and order.  In the source the order object is pushed and then
mutated through the same reference, so the entry stored in `assignedOrders`
is the updated order (status `'assigned'`, `assignedDrone` set). -/
def assignOrder (d : Drone) (o : Order) : Bool × Drone × Order :=
  if canCarryOrder d o then
    let o' : Order := { o with status := OrderStatus.assigned, assignedDrone := some d.id }
    let d' : Drone := { d with
      assignedOrders := d.assignedOrders ++ [o'],
      currentLoad := d.currentLoad + o.weight }
    (true, d', o')
  else
    (false, d, o)

/-- Stable insertion of `a` into `l`, placing `a` before the first element `b`
with `le a b`.  Together with `sortLe` this models `Array.prototype.sort`
with a comparator `c` (stable, ascending), taking `le a b := c a b ≤ 0`. -/
def insertLe {α : Type} (le : α → α → Prop) (a : α) : List α → List α
  | [] => [a]
  | b :: t => if le a b then a :: b :: t else b :: insertLe le a t

/-- Stable sort by the relation `le` (model of `Array.prototype.sort`). -/
def sortLe {α : Type} (le : α → α → Prop) : List α → List α
  | [] => []
  | a :: t => insertLe le a (sortLe le t)

theorem insertLe_perm {α : Type} (le : α → α → Prop) (a : α) (l : List α) :
    (insertLe le a l).Perm (a :: l) := by
  induction l with
  | nil => simp [insertLe]
  | cons b t ih =>
      by_cases h : le a b
      · simp [insertLe, h]
      · simp only [insertLe, if_neg h]
        exact (List.Perm.cons b ih).trans (List.Perm.swap a b t)

theorem sortLe_perm {α : Type} (le : α → α → Prop) (l : List α) :
    (sortLe le l).Perm l := by
  induction l with
  | nil => simp [sortLe]
  | cons a t ih =>
      exact (insertLe_perm le a (sortLe le t)).trans (List.Perm.cons a ih)

/-- Default order value used for JS array indexing (`orders[i]` is only ever
evaluated at valid indices in the source; the default is never selected). -/
def dummyOrder : Order :=
  { id := 0, location := { x := 0, y := 0 }, weight := 0, priority := Priority.baixa,
    status := OrderStatus.pending, createdAt := 0, assignedDrone := none }

/-- `priorityOrder` map of `Drone.optimizeRoute` (also `priorityScores` of
`distanceOptimization` and `priorityWeight` of `findBestOrderCombination`):
`alta 3, media 2, baixa 1`. -/
def priorityOrderVal : Priority → ℤ
  | Priority.alta => 3
  | Priority.media => 2
  | Priority.baixa => 1

/-- `priorityScores` map of `priorityFirstOptimization` and
`calculateBalancedScore`: `alta 100, media 50, baixa 10`. -/
def priorityScores100 : Priority → ℤ
  | Priority.alta => 100
  | Priority.media => 50
  | Priority.baixa => 10

/-- The inline priority weight of `Drone.optimizeRoute`:
`alta 0.7, media 0.85, baixa 1.0`. -/
def priorityWeight : Priority → ℝ
  | Priority.alta => 0.7
  | Priority.media => 0.85
  | Priority.baixa => 1.0

/-- A stop of a drone route: `{...basePosition, type: 'base'}` or
`{...order.location, type: 'delivery', order}`. -/
inductive RouteStop where
  | base (p : Point)
  | delivery (p : Point) (o : Order)
deriving DecidableEq

/-- Position of a route stop. -/
def RouteStop.pos : RouteStop → Point
  | RouteStop.base p => p
  | RouteStop.delivery p _ => p

/-- The scan of `Drone.optimizeRoute`'s inner `for` loop: state
`(nearestIndex, nearestDistance)`, index `j` of the current element.  A
candidate replaces the incumbent when `distance * priorityWeight <
nearestDistance`, and `nearestDistance` is then set to the candidate's
unweighted `distance` (exactly as in the source). -/
def nnScanAux (current : Point) : List Order → ℕ → ℕ × ℝ → ℕ × ℝ
  | [], _, acc => acc
  | o :: rest, j, acc =>
      let distance := calculateDistance current o.location
      nnScanAux current rest (j + 1)
        (if distance * priorityWeight o.priority < acc.2 then (j, distance) else acc)

theorem nnScanAux_fst_lt (current : Point) (t : List Order) :
    ∀ (j : ℕ) (acc : ℕ × ℝ), acc.1 < j → (nnScanAux current t j acc).1 < j + t.length := by
  induction t with
  | nil => intro j acc h; simpa [nnScanAux] using h
  | cons o rest ih =>
      intro j acc h
      simp only [nnScanAux]
      have h' : (if calculateDistance current o.location * priorityWeight o.priority < acc.2
          then (j, calculateDistance current o.location) else acc).1 < j + 1 := by
        split
        · exact Nat.lt_succ_self j
        · exact Nat.lt_succ_of_lt h
      have := ih (j + 1) _ h'
      simp only [List.length_cons]
      omega

theorem nnScanAux_fst_lt' (current : Point) (h : Order) (t : List Order) :
    (nnScanAux current t 1 (0, calculateDistance current h.location)).1 < (h :: t).length := by
  have := nnScanAux_fst_lt current t 1 (0, calculateDistance current h.location) Nat.zero_lt_one
  simp only [List.length_cons]
  omega

/-- The `while (unvisited.length > 0)` loop of `Drone.optimizeRoute`: pick the
scan winner, append it as a delivery stop, remove it (`splice`) and continue
from its location. -/
def nnLoop (u : List Order) (current : Point) : List RouteStop :=
  match u with
  | [] => []
  | h :: t =>
      let s := nnScanAux current t 1 (0, calculateDistance current h.location)
      let chosen := (h :: t).getD s.1 dummyOrder
      RouteStop.delivery chosen.location chosen ::
        nnLoop ((h :: t).eraseIdx s.1) chosen.location
termination_by u.length
decreasing_by
  have h1 := List.length_eraseIdx_add_one (nnScanAux_fst_lt' current h t)
  omega

/-- `Drone.optimizeRoute()`: sort assigned orders by priority (stable), then
the priority-weighted nearest-neighbour loop, starting and ending at the base. -/
def Drone.optimizeRoute (d : Drone) : List RouteStop :=
  if d.assignedOrders = [] then []
  else
    let sortedOrders := sortLe
      (fun a b => priorityOrderVal b.priority ≤ priorityOrderVal a.priority)
      d.assignedOrders
    (RouteStop.base d.basePosition :: nnLoop sortedOrders d.basePosition) ++
      [RouteStop.base d.basePosition]

/-- `Drone.calculateRouteDistance()`: sum of consecutive leg lengths of a
route of stops (0 for routes with fewer than 2 points). -/
def Drone.calculateRouteDistance : List RouteStop → ℝ
  | [] => 0
  | [_] => 0
  | a :: b :: t => calculateDistance a.pos b.pos + Drone.calculateRouteDistance (b :: t)

/-- Default drone value used for JS array indexing (never selected in the
source: all indices are in bounds). -/
def dummyDrone : Drone :=
  { id := 0, capacity := 0, range := 0, currentLoad := 0, battery := 0,
    position := { x := 0, y := 0 }, status := DroneStatus.idle,
    assignedOrders := [], basePosition := { x := 0, y := 0 } }

/-- One entry of the `assignments` array built by the strategies: the drone id
and the ids of the orders recorded for it.  (The derived reporting fields
`totalWeight` / `clusterDistance` of the source records are omitted.) -/
structure Assignment where
  drone : ℕ
  orders : List ℕ
deriving DecidableEq

/-- The result object of `optimizeDeliveries` and the strategy functions.
The empty-input result carries no `assignments`/`strategy` fields in the
source; that is modelled by `[]` / `none`. -/
structure OptResult where
  success : Bool
  message : String
  assignments : List Assignment
  strategy : Option String

/-- A strategy invocation together with its side effects: in the source the
drones and orders are mutated in place, here the updated values are returned
alongside the result object. -/
structure OptOutcome where
  result : OptResult
  drones : List Drone
  orders : List Order

/-- `OptimizationAlgorithm.calculateAssignmentScore(order, drone)`. -/
def calculateAssignmentScore (o : Order) (d : Drone) : ℝ :=
  let distance := calculateDistance d.position o.location
  let capacityUtilization := (d.currentLoad + o.weight) / d.capacity
  let batteryFactor := d.battery / 100
  (capacityUtilization * batteryFactor) / (distance + 0.1)

/-- `OptimizationAlgorithm.calculateOrderEfficiencyScore(order, drone)`
(the local `priorityWeight` map there is `alta 3, media 2, baixa 1`). -/
def calculateOrderEfficiencyScore (o : Order) (d : Drone) (now : ℝ) : ℝ :=
  let distance := calculateDistance d.position o.location
  let timeWeight := min ((o.getWaitingTime now : ℝ) / 30) 2
  ((priorityOrderVal o.priority : ℝ) + timeWeight) / (distance + 0.1)

/-- `Math.min(...xs)` over a nonempty list (the source only applies it to the
nonempty list of available drones). -/
def listMinD : List ℝ → ℝ
  | [] => 0
  | x :: t => t.foldl min x

/-- `OptimizationAlgorithm.calculateBalancedScore(order, drones)`. -/
def calculateBalancedScore (o : Order) (drones : List Drone) (now : ℝ) : ℝ :=
  let timeBonus := min ((o.getWaitingTime now : ℝ) * 2) 50
  let minDistance := listMinD (drones.map fun d => calculateDistance d.position o.location)
  (priorityScores100 o.priority : ℝ) + timeBonus - minDistance * 5

/-- The inner drone loop of `greedyAssignment`: scan the idle drones that can
carry `o`, keeping the index of the first drone whose score strictly exceeds
the best seen (`bestScore` starts at `-1`).  In the source the idle drones
are collected once up front; since `assignOrder` never changes `status`,
filtering at scan time is equivalent. -/
def greedyScanAux (o : Order) : List Drone → ℕ → Option ℕ × ℝ → Option ℕ × ℝ
  | [], _, acc => acc
  | d :: rest, j, acc =>
      greedyScanAux o rest (j + 1)
        (if d.status = DroneStatus.idle ∧ canCarryOrder d o then
          (if calculateAssignmentScore o d > acc.2 then (some j, calculateAssignmentScore o d)
           else acc)
         else acc)

def greedyBestScan (o : Order) (drones : List Drone) : Option ℕ :=
  (greedyScanAux o drones 0 (none, -1)).1

/-- Append `oid` to the first assignment record of drone `did`
(`assignments.find(a => a.drone === id)` followed by a push). -/
def pushToAssignment : List Assignment → ℕ → ℕ → List Assignment
  | [], _, _ => []
  | a :: t, did, oid =>
      if a.drone = did then { a with orders := a.orders ++ [oid] } :: t
      else a :: pushToAssignment t did oid

/-- Loop state of `greedyAssignment`: the mutated drones, the `assignments`
accumulator, `assignedOrdersCount`, and the orders already iterated (with
their possible in-place mutation by `assignOrder`). -/
structure GreedyState where
  drones : List Drone
  assignments : List Assignment
  assignedOrdersCount : ℕ
  processed : List Order

/-- One iteration of `greedyAssignment`'s `for (const order of orders)` loop. -/
def greedyStep (st : GreedyState) (o : Order) : GreedyState :=
  if o.status ≠ OrderStatus.pending then { st with processed := st.processed ++ [o] }
  else
    match greedyBestScan o st.drones with
    | none => { st with processed := st.processed ++ [o] }
    | some j =>
        let d := st.drones.getD j dummyDrone
        let r := assignOrder d o
        if r.1 then
          let d' := r.2.1
          let assignments' :=
            if d'.assignedOrders.length = 1 then st.assignments ++ [⟨d'.id, [o.id]⟩]
            else pushToAssignment st.assignments d'.id o.id
          { drones := st.drones.set j d', assignments := assignments',
            assignedOrdersCount := st.assignedOrdersCount + 1,
            processed := st.processed ++ [r.2.2] }
        else { st with processed := st.processed ++ [o] }

/-- `OptimizationAlgorithm.greedyAssignment(orders, drones)`. -/
def greedyAssignment (orders : List Order) (drones : List Drone) : OptOutcome :=
  let final := orders.foldl greedyStep ⟨drones, [], 0, []⟩
  { result :=
      { success := decide (0 < final.assignedOrdersCount),
        message := toString final.assignedOrdersCount ++ " pedidos atribuídos usando algoritmo guloso",
        assignments := final.assignments,
        strategy := some "greedy_assignment" },
    drones := final.drones,
    orders := final.processed }

/-- Comparator of `priorityFirstOptimization`'s sort:
`priorityScores[b] - priorityScores[a]`, waiting-time difference on ties. -/
def priorityFirstCmp (now : ℝ) (a b : Order) : ℤ :=
  let priorityDiff := priorityScores100 b.priority - priorityScores100 a.priority
  if priorityDiff ≠ 0 then priorityDiff
  else b.getWaitingTime now - a.getWaitingTime now

/-- `OptimizationAlgorithm.priorityFirstOptimization(orders, drones)`. -/
def priorityFirstOptimization (orders : List Order) (drones : List Drone) (now : ℝ) :
    OptOutcome :=
  let sortedOrders := sortLe (fun a b => priorityFirstCmp now a b ≤ 0) orders
  greedyAssignment sortedOrders drones

/-- `OptimizationAlgorithm.balancedOptimization(orders, drones)`: sort by
balanced score, descending (the source decorates each order with its score
before sorting; the score is a pure function, so sorting by the recomputed
score is the same), then greedy assignment. -/
def balancedOptimization (orders : List Order) (drones : List Drone) (now : ℝ) :
    OptOutcome :=
  let sortedOrders := sortLe
    (fun a b => calculateBalancedScore b drones now ≤ calculateBalancedScore a drones now)
    orders
  greedyAssignment sortedOrders drones

/-- `pendingOrders.splice(pendingOrders.indexOf(order), 1)`: remove the first
entry with the given id (object identity is modelled by the order id). -/
def eraseById : List Order → ℕ → List Order
  | [], _ => []
  | o :: t, i => if o.id = i then t else o :: eraseById t i

/-- In-place mutation of an order object that is aliased by the caller's
array: replace the entry with the matching id by the updated order. -/
def updateOrders (orders : List Order) (o' : Order) : List Order :=
  orders.map fun p => if p.id = o'.id then o' else p

/-- `OptimizationAlgorithm.findBestOrderCombination(orders, drone)`: filter
the individually feasible orders, sort by efficiency score (descending), then
greedily pack by weight into the remaining capacity. -/
def findBestOrderCombination (orders : List Order) (d : Drone) (now : ℝ) : List Order :=
  let validOrders := orders.filter fun o => decide (canCarryOrder d o)
  if validOrders = [] then []
  else
    let remainingOrders := sortLe
      (fun a b => calculateOrderEfficiencyScore b d now ≤ calculateOrderEfficiencyScore a d now)
      validOrders
    (remainingOrders.foldl
      (fun (acc : List Order × ℝ) o =>
        if o.weight ≤ acc.2 then (acc.1 ++ [o], acc.2 - o.weight) else acc)
      ([], d.capacity - d.currentLoad)).1

/-- Loop state of `capacityOptimization`. -/
structure CapState where
  drones : List Drone
  pending : List Order
  assignments : List Assignment
  orders : List Order

/-- One iteration of `capacityOptimization`'s `for (const drone of
availableDrones)` loop, for the drone at index `i` (the filter to idle drones
is applied per index; `assignOrder` never changes `status`, so this agrees
with the up-front snapshot taken in the source). -/
def capacityProcessDrone (now : ℝ) (st : CapState) (i : ℕ) : CapState :=
  let d := st.drones.getD i dummyDrone
  if d.status = DroneStatus.idle then
    let bestCombination := findBestOrderCombination st.pending d now
    if bestCombination = [] then st
    else
      let inner := bestCombination.foldl
        (fun (acc : Drone × List Order × List Order) o =>
          let r := assignOrder acc.1 o
          if r.1 then (r.2.1, eraseById acc.2.1 o.id, updateOrders acc.2.2 r.2.2)
          else acc)
        (d, st.pending, st.orders)
      { drones := st.drones.set i inner.1,
        pending := inner.2.1,
        assignments := st.assignments ++ [⟨d.id, bestCombination.map (·.id)⟩],
        orders := inner.2.2 }
  else st

/-- `OptimizationAlgorithm.capacityOptimization(orders, drones)`. -/
def capacityOptimization (orders : List Order) (drones : List Drone) (now : ℝ) :
    OptOutcome :=
  let init : CapState :=
    { drones := drones,
      pending := orders.filter fun o => decide (o.status = OrderStatus.pending),
      assignments := [], orders := orders }
  let final := (List.range drones.length).foldl (capacityProcessDrone now) init
  { result :=
      { success := decide (0 < final.assignments.length),
        message := toString final.assignments.length ++ " drones otimizados por capacidade",
        assignments := final.assignments,
        strategy := some "capacity_optimization" },
    drones := final.drones,
    orders := final.orders }

/-- The centroid scan of `clusterOrdersByDistance`: index of the nearest
centroid, strict `<`, ties to the lowest index. -/
def ncScanAux (p : Point) : List Point → ℕ → ℕ × ℝ → ℕ × ℝ
  | [], _, acc => acc
  | c :: rest, j, acc =>
      let distance := calculateDistance p c
      ncScanAux p rest (j + 1) (if distance < acc.2 then (j, distance) else acc)

/-- Index of the centroid nearest to `p`. -/
def nearestCentroidIdx (p : Point) (centroids : List Point) : ℕ :=
  match centroids with
  | [] => 0
  | c0 :: rest => (ncScanAux p rest 1 (0, calculateDistance p c0)).1

/-- Assign every order to its nearest centroid (`k` buckets, orders appended
in input sequence). -/
def assignToClusters (orders : List Order) (centroids : List Point) (k : ℕ) :
    List (List Order) :=
  orders.foldl
    (fun cs o =>
      let j := nearestCentroidIdx o.location centroids
      cs.set j (cs.getD j [] ++ [o]))
    (List.replicate k [])

/-- Centroid update: each non-empty cluster's centroid becomes the mean of
its members' locations, empty clusters keep their previous centroid. -/
def updateCentroids (centroids : List Point) (clusters : List (List Order)) :
    List Point :=
  centroids.enum.map fun p =>
    let cl := clusters.getD p.1 []
    if cl = [] then p.2
    else
      { x := (cl.map fun o => o.location.x).sum / cl.length,
        y := (cl.map fun o => o.location.y).sum / cl.length }

/-- One k-means iteration of `clusterOrdersByDistance`. -/
def kmeansStep (orders : List Order) (k : ℕ) (centroids : List Point) : List Point :=
  updateCentroids centroids (assignToClusters orders centroids k)

/-- The fixed-count iteration loop (`for (let iteration = 0; iteration < 3; ...)`). -/
def kmeansIterate (orders : List Order) (k : ℕ) : ℕ → List Point → List Point
  | 0, c => c
  | n + 1, c => kmeansIterate orders k n (kmeansStep orders k c)

/-- `OptimizationAlgorithm.clusterOrdersByDistance(orders, k)`.  The random
draws of `Math.floor(Math.random() * orders.length)` are supplied as the
stream `rnd` (draw `i` yields index `rnd i % orders.length`). -/
def clusterOrdersByDistance (orders : List Order) (k : ℕ) (rnd : ℕ → ℕ) :
    List (List Order) :=
  if orders.length ≤ k then orders.map fun o => [o]
  else
    let centroids0 := (List.range k).map fun i =>
      (orders.getD (rnd i % orders.length) dummyOrder).location
    let centroids := kmeansIterate orders k 3 centroids0
    (assignToClusters orders centroids k).filter fun c => decide (c ≠ [])

/-- Loop state of `distanceOptimization`. -/
structure DistState where
  drones : List Drone
  assignments : List Assignment
  orders : List Order

/-- One iteration of `distanceOptimization`'s cluster loop: sort cluster `i`
by priority (descending), then assign each order that passes
`drone.canCarryOrder(order) && drone.assignOrder(order)` to drone `i`. -/
def distProcessCluster (clusters : List (List Order)) (st : DistState) (i : ℕ) :
    DistState :=
  let d := st.drones.getD i dummyDrone
  let cluster := clusters.getD i []
  let sortedCluster := sortLe
    (fun a b => priorityOrderVal b.priority ≤ priorityOrderVal a.priority) cluster
  let inner := sortedCluster.foldl
    (fun (acc : Drone × List Order × List Order) o =>
      if canCarryOrder acc.1 o then
        let r := assignOrder acc.1 o
        if r.1 then (r.2.1, acc.2.1 ++ [r.2.2], updateOrders acc.2.2 r.2.2) else acc
      else acc)
    (d, [], st.orders)
  let st' : DistState :=
    { st with drones := st.drones.set i inner.1, orders := inner.2.2 }
  if inner.2.1 = [] then st'
  else { st' with assignments := st.assignments ++ [⟨d.id, inner.2.1.map (·.id)⟩] }

/-- `OptimizationAlgorithm.distanceOptimization(orders, drones)`. -/
def distanceOptimization (orders : List Order) (drones : List Drone) (rnd : ℕ → ℕ) :
    OptOutcome :=
  let clusters := clusterOrdersByDistance orders drones.length rnd
  let final := (List.range (min clusters.length drones.length)).foldl
    (distProcessCluster clusters) ⟨drones, [], orders⟩
  { result :=
      { success := decide (0 < final.assignments.length),
        message := toString final.assignments.length ++ " drones otimizados por distância",
        assignments := final.assignments,
        strategy := some "distance_optimization" },
    drones := final.drones,
    orders := final.orders }

/-- The four strategy names dispatched by `applyOptimizationStrategy`. -/
inductive Strategy where
  | priority_first
  | capacity_optimization
  | distance_optimization
  | balanced_optimization
deriving DecidableEq

/-- `OptimizationAlgorithm.applyOptimizationStrategy(orders, drones, strategy)`. -/
def applyOptimizationStrategy (orders : List Order) (drones : List Drone)
    (strategy : Strategy) (rnd : ℕ → ℕ) (now : ℝ) : OptOutcome :=
  match strategy with
  | Strategy.priority_first => priorityFirstOptimization orders drones now
  | Strategy.capacity_optimization => capacityOptimization orders drones now
  | Strategy.distance_optimization => distanceOptimization orders drones rnd
  | Strategy.balanced_optimization => balancedOptimization orders drones now

/-- `OptimizationAlgorithm.calculateAverageDistanceFromBase(orders)`. -/
def calculateAverageDistanceFromBase (orders : List Order) : ℝ :=
  if orders.length = 0 then 0
  else
    (orders.map fun o => calculateDistance o.location { x := 10, y := 10 }).sum /
      orders.length

/-- The analysis object of `analyzeDeliveryScenario`. -/
structure ScenarioAnalysis where
  orderCount : ℕ
  droneCount : ℕ
  capacityUtilization : ℝ
  avgDistance : ℝ
  priorityRatio : ℝ
  isHighVolume : Bool
  isHighPriority : Bool

/-- `OptimizationAlgorithm.analyzeDeliveryScenario(orders, drones)`. -/
def analyzeDeliveryScenario (orders : List Order) (drones : List Drone) :
    ScenarioAnalysis :=
  let totalWeight := (orders.map (·.weight)).sum
  let totalCapacity := (drones.map (·.capacity)).sum
  let highPriorityCount := (orders.filter fun o => decide (o.priority = Priority.alta)).length
  { orderCount := orders.length,
    droneCount := drones.length,
    capacityUtilization := totalWeight / totalCapacity,
    avgDistance := calculateAverageDistanceFromBase orders,
    priorityRatio := (highPriorityCount : ℝ) / (orders.length : ℝ),
    isHighVolume := decide (orders.length > drones.length * 3),
    isHighPriority := decide ((highPriorityCount : ℝ) > (orders.length : ℝ) * 0.5) }

/-- `OptimizationAlgorithm.selectOptimizationStrategy(analysis)`. -/
def selectOptimizationStrategy (a : ScenarioAnalysis) : Strategy :=
  if a.isHighPriority then Strategy.priority_first
  else if a.isHighVolume then Strategy.capacity_optimization
  else if a.avgDistance > 10 then Strategy.distance_optimization
  else Strategy.balanced_optimization

/-- `OptimizationAlgorithm.optimizeDeliveries(orders, drones)`: guard on empty
input, then analyse, select a strategy and apply it. -/
def optimizeDeliveries (orders : List Order) (drones : List Drone) (rnd : ℕ → ℕ)
    (now : ℝ) : OptOutcome :=
  if orders = [] ∨ drones = [] then
    { result :=
        { success := false, message := "Sem pedidos ou drones disponíveis",
          assignments := [], strategy := none },
      drones := drones, orders := orders }
  else
    applyOptimizationStrategy orders drones
      (selectOptimizationStrategy (analyzeDeliveryScenario orders drones)) rnd now

/-- `OptimizationAlgorithm.calculateRouteDistance(route)`: total length of a
route given as an array of positions. -/
def OptimizationAlgorithm.calculateRouteDistance : List Point → ℝ
  | [] => 0
  | [_] => 0
  | a :: b :: t =>
      calculateDistance a b + OptimizationAlgorithm.calculateRouteDistance (b :: t)

/-- `OptimizationAlgorithm.reverseRouteSegment(route, start, end)`: reverse
the segment `[i..j]` in place (two-pointer swap). -/
def reverseRouteSegment (route : List Point) (i j : ℕ) : List Point :=
  route.take i ++ ((route.drop i).take (j + 1 - i)).reverse ++ route.drop (j + 1)

theorem reverseRouteSegment_perm (route : List Point) (i j : ℕ) (h : i ≤ j + 1) :
    (reverseRouteSegment route i j).Perm route := by
  have hsplit : route = route.take i ++ ((route.drop i).take (j + 1 - i) ++ route.drop (j + 1)) := by
    conv_lhs => rw [← List.take_append_drop i route]
    congr 1
    conv_lhs => rw [← List.take_append_drop (j + 1 - i) (route.drop i)]
    congr 1
    rw [List.drop_drop]
    congr 1
    omega
  rw [reverseRouteSegment, List.append_assoc]
  conv_rhs => rw [hsplit]
  exact List.Perm.append_left _ (List.Perm.append_right _ (List.reverse_perm _))

/-- The index pairs `(i, j)` scanned by `optimizeRouteWith2Opt`'s nested
loops: `1 <= i < n - 2`, `i + 1 <= j < n - 1`. -/
def twoOptPairs (n : ℕ) : List (ℕ × ℕ) :=
  (List.range' 1 (n - 3)).bind fun i =>
    (List.range' (i + 1) (n - 2 - i)).map fun j => (i, j)

theorem twoOptPairs_le (n : ℕ) : ∀ p ∈ twoOptPairs n, p.1 ≤ p.2 + 1 := by
  intro p hp
  simp only [twoOptPairs, List.mem_bind, List.mem_map, List.mem_range'] at hp
  obtain ⟨i, hi, j, hj, rfl⟩ := hp
  omega

/-- One full pass of `optimizeRouteWith2Opt`'s `while (improved)` body: scan
all pairs, keep the best strictly improving reversal.  State:
`(bestRoute, bestDistance, improved)`. -/
def twoOptPass (route : List Point) (bd : ℝ) : List Point × ℝ × Bool :=
  (twoOptPairs route.length).foldl
    (fun acc p =>
      let newRoute := reverseRouteSegment route p.1 p.2
      let newDistance := OptimizationAlgorithm.calculateRouteDistance newRoute
      if newDistance < acc.2.1 then (newRoute, newDistance, true) else acc)
    (route, bd, false)

theorem twoOptFold_inv (route : List Point) (bd : ℝ) (pairs : List (ℕ × ℕ))
    (hple : ∀ p ∈ pairs, p.1 ≤ p.2 + 1) (acc : List Point × ℝ × Bool)
    (hInv : (acc.2.2 = false → acc.1 = route ∧ acc.2.1 = bd) ∧
      (acc.2.2 = true →
        acc.2.1 < bd ∧
          acc.2.1 = OptimizationAlgorithm.calculateRouteDistance acc.1 ∧ acc.1.Perm route)) :
    let r := pairs.foldl
      (fun acc p =>
        let newRoute := reverseRouteSegment route p.1 p.2
        let newDistance := OptimizationAlgorithm.calculateRouteDistance newRoute
        if newDistance < acc.2.1 then (newRoute, newDistance, true) else acc)
      acc
    (r.2.2 = false → r.1 = route ∧ r.2.1 = bd) ∧
      (r.2.2 = true →
        r.2.1 < bd ∧
          r.2.1 = OptimizationAlgorithm.calculateRouteDistance r.1 ∧ r.1.Perm route) := by
  induction pairs generalizing acc with
  | nil => exact hInv
  | cons p t ih =>
      simp only [List.foldl_cons]
      apply ih (fun q hq => hple q (List.mem_cons_of_mem p hq))
      by_cases hlt :
          OptimizationAlgorithm.calculateRouteDistance (reverseRouteSegment route p.1 p.2) <
            acc.2.1
      · simp only [if_pos hlt]
        refine ⟨fun h => Bool.noConfusion h, fun _ => ?_⟩
        have hbd :
            OptimizationAlgorithm.calculateRouteDistance (reverseRouteSegment route p.1 p.2) <
              bd := by
          cases hb : acc.2.2 with
          | false => exact (hInv.1 hb).2 ▸ hlt
          | true => exact lt_trans hlt (hInv.2 hb).1
        exact ⟨hbd, trivial,
          reverseRouteSegment_perm route p.1 p.2 (hple p (List.mem_cons_self p t))⟩
      · simp only [if_neg hlt]
        exact hInv

theorem twoOptPass_inv (route : List Point) (bd : ℝ) :
    ((twoOptPass route bd).2.2 = false →
        (twoOptPass route bd).1 = route ∧ (twoOptPass route bd).2.1 = bd) ∧
      ((twoOptPass route bd).2.2 = true →
        (twoOptPass route bd).2.1 < bd ∧
          (twoOptPass route bd).2.1 =
            OptimizationAlgorithm.calculateRouteDistance (twoOptPass route bd).1 ∧
          ((twoOptPass route bd).1).Perm route) := by
  rw [twoOptPass]
  refine twoOptFold_inv route bd (twoOptPairs route.length) (twoOptPairs_le route.length)
    (route, bd, false) ?_
  refine ⟨fun _ => ⟨rfl, rfl⟩, fun h => ?_⟩
  exact Bool.noConfusion h

theorem countP_lt_of_witness {α : Type} (l : List α) (p q : α → Bool)
    (himp : ∀ x, p x = true → q x = true) (x : α) (hx : x ∈ l)
    (hqx : q x = true) (hpx : p x = false) : l.countP p < l.countP q := by
  induction l with
  | nil => cases hx
  | cons a t ih =>
      rcases List.mem_cons.1 hx with rfl | hxt
      · have hle : t.countP p ≤ t.countP q := List.countP_mono_left fun y _ hy => himp y hy
        rw [List.countP_cons_of_neg _ _ (by simp [hpx]), List.countP_cons_of_pos _ _ hqx]
        omega
      · have hlt := ih hxt
        by_cases hpa : p a = true
        · rw [List.countP_cons_of_pos _ _ hpa, List.countP_cons_of_pos _ _ (himp a hpa)]
          omega
        · rw [List.countP_cons_of_neg _ _ hpa]
          by_cases hqa : q a = true
          · rw [List.countP_cons_of_pos _ _ hqa]; omega
          · rw [List.countP_cons_of_neg _ _ hqa]; omega

/-- The `while (improved)` loop of `optimizeRouteWith2Opt`.  At each pass
start the scanned `route` coincides with `bestRoute` (it is initialised to a
copy of `route` and re-synchronised by `route = bestRoute` at the end of each
pass), so the loop state reduces to the pair `(route, bestDistance)`;
termination holds because every improving pass strictly shrinks the set of
strictly better permutations of the route. -/
def twoOptLoop (route : List Point) (bd : ℝ) : List Point :=
  let s := twoOptPass route bd
  if h : s.2.2 = true then twoOptLoop s.1 s.2.1 else route
termination_by
  (route.permutations.countP fun r =>
    decide (OptimizationAlgorithm.calculateRouteDistance r < bd))
decreasing_by
  have hinv := (twoOptPass_inv route bd).2 h
  obtain ⟨hlt, hda, hperm⟩ := hinv
  have hcnt := (hperm.permutations).countP_eq fun r =>
    decide (OptimizationAlgorithm.calculateRouteDistance r <
      (twoOptPass route bd).2.1)
  rw [hcnt]
  exact countP_lt_of_witness route.permutations _ _
    (fun x hx => by
      simp only [decide_eq_true_eq] at hx ⊢
      exact lt_trans hx hlt)
    (twoOptPass route bd).1
    (List.mem_permutations.2 hperm)
    (by simp only [decide_eq_true_eq]; exact hda ▸ hlt)
    (by simp only [decide_eq_false_iff_not]; exact hda ▸ lt_irrefl _)

/-- `OptimizationAlgorithm.optimizeRouteWith2Opt(route)`. -/
def optimizeRouteWith2Opt (route : List Point) : List Point :=
  if route.length < 4 then route
  else twoOptLoop route (OptimizationAlgorithm.calculateRouteDistance route)
theorem twoOptLoop_le (route₀ : List Point) (bd₀ : ℝ) :
    OptimizationAlgorithm.calculateRouteDistance route₀ = bd₀ →
      OptimizationAlgorithm.calculateRouteDistance (twoOptLoop route₀ bd₀) ≤ bd₀ := by
  induction route₀, bd₀ using twoOptLoop.induct with
  | case1 route bd s himp ih =>
      intro hbd
      rw [twoOptLoop]
      simp only [dif_pos himp]
      have hp := (twoOptPass_inv route bd).2 himp
      exact le_trans (ih hp.2.1.symm) (le_of_lt hp.1)
  | case2 route bd s himp =>
      intro hbd
      rw [twoOptLoop]
      simp only [dif_neg himp]
      exact le_of_eq hbd

theorem twoOptLoop_perm (route₀ : List Point) (bd₀ : ℝ) :
    (twoOptLoop route₀ bd₀).Perm route₀ := by
  induction route₀, bd₀ using twoOptLoop.induct with
  | case1 route bd s himp ih =>
      rw [twoOptLoop]
      simp only [dif_pos himp]
      have hp := (twoOptPass_inv route bd).2 himp
      exact ih.trans hp.2.2
  | case2 route bd s himp =>
      rw [twoOptLoop]
      simp only [dif_neg himp]
      exact List.Perm.refl route

theorem twoOptLoop_localopt (route₀ : List Point) (bd₀ : ℝ) :
    OptimizationAlgorithm.calculateRouteDistance route₀ = bd₀ →
      (twoOptPass (twoOptLoop route₀ bd₀)
          (OptimizationAlgorithm.calculateRouteDistance (twoOptLoop route₀ bd₀))).2.2 =
        false := by
  induction route₀, bd₀ using twoOptLoop.induct with
  | case1 route bd s himp ih =>
      intro hbd
      rw [twoOptLoop]
      simp only [dif_pos himp]
      have hp := (twoOptPass_inv route bd).2 himp
      exact ih hp.2.1.symm
  | case2 route bd s himp =>
      intro hbd
      rw [twoOptLoop]
      simp only [dif_neg himp]
      rw [hbd]
      exact Bool.eq_false_iff.2 himp

theorem twoOptLoop_of_pass_false (route : List Point) (bd : ℝ)
    (h : (twoOptPass route bd).2.2 = false) : twoOptLoop route bd = route := by
  rw [twoOptLoop]
  split
  · next himp => exact absurd himp (by rw [h]; exact Bool.false_ne_true)
  · rfl

/-- C4: for every path, the 2-opt improver `optimizeRouteWith2Opt` is
non-worsening — the total Euclidean distance of the improved path is at most
that of the input path — and idempotent: improving an already improved path
returns it unchanged. -/
theorem optimizeRouteWith2Opt_nonworsening_idempotent (route : List Point) :
    OptimizationAlgorithm.calculateRouteDistance (optimizeRouteWith2Opt route) ≤
        OptimizationAlgorithm.calculateRouteDistance route ∧
      optimizeRouteWith2Opt (optimizeRouteWith2Opt route) = optimizeRouteWith2Opt route := by
  by_cases hlen : route.length < 4
  · rw [optimizeRouteWith2Opt, if_pos hlen]
    exact ⟨le_refl _, by rw [optimizeRouteWith2Opt, if_pos hlen]⟩
  · have hR : optimizeRouteWith2Opt route =
        twoOptLoop route (OptimizationAlgorithm.calculateRouteDistance route) := by
      rw [optimizeRouteWith2Opt, if_neg hlen]
    have hperm := twoOptLoop_perm route (OptimizationAlgorithm.calculateRouteDistance route)
    have hlenR :
        ¬(twoOptLoop route (OptimizationAlgorithm.calculateRouteDistance route)).length < 4 := by
      rw [hperm.length_eq]
      exact hlen
    refine ⟨?_, ?_⟩
    · rw [hR]
      exact twoOptLoop_le route _ rfl
    · rw [hR, optimizeRouteWith2Opt, if_neg hlenR]
      exact twoOptLoop_of_pass_false _ _ (twoOptLoop_localopt route _ rfl)

/-- C3: `canCarryOrder` holds exactly when the three conjuncts hold: the new
load fits the capacity, the round trip current position → order → base is
within range, and the battery is at least `min(100, round_trip * 5)` percent
(`5` is the battery rate per distance unit).  The predicate is a pure
function of the drone and order values — it has no side effects. -/
theorem canCarryOrder_iff (d : Drone) (o : Order) :
    canCarryOrder d o ↔
      d.currentLoad + o.weight ≤ d.capacity ∧
        calculateDistance d.position o.location +
            calculateDistance o.location d.basePosition ≤ d.range ∧
          d.battery ≥
            min 100
              ((calculateDistance d.position o.location +
                  calculateDistance o.location d.basePosition) * 5) := by
  rw [canCarryOrder, calculateBatteryNeeded]

theorem calculateDistance_self (p : Point) : calculateDistance p p = 0 := by
  simp [calculateDistance]

theorem calculateDistance_vert (x y₁ y₂ : ℝ) :
    calculateDistance { x := x, y := y₁ } { x := x, y := y₂ } = |y₂ - y₁| := by
  simp [calculateDistance, Real.sqrt_mul_self_eq_abs]

/-- C10: `assignOrder` is atomic.  When `canCarryOrder` fails it returns
`false` and leaves drone and order untouched; when it holds it returns
`true`, appends the (updated) order to `assignedOrders`, adds exactly
`order.weight` to `currentLoad`, marks the order `'assigned'` with
`assignedDrone = drone.id`, and changes no other field of either object. -/
theorem assignOrder_atomic (d : Drone) (o : Order) :
    (¬canCarryOrder d o → assignOrder d o = (false, d, o)) ∧
      (canCarryOrder d o →
        (assignOrder d o).1 = true ∧
          (assignOrder d o).2.1.assignedOrders = d.assignedOrders ++ [(assignOrder d o).2.2] ∧
          (assignOrder d o).2.1.currentLoad = d.currentLoad + o.weight ∧
          (assignOrder d o).2.2.status = OrderStatus.assigned ∧
          (assignOrder d o).2.2.assignedDrone = some d.id ∧
          (assignOrder d o).2.1.id = d.id ∧
          (assignOrder d o).2.1.capacity = d.capacity ∧
          (assignOrder d o).2.1.range = d.range ∧
          (assignOrder d o).2.1.battery = d.battery ∧
          (assignOrder d o).2.1.position = d.position ∧
          (assignOrder d o).2.1.status = d.status ∧
          (assignOrder d o).2.1.basePosition = d.basePosition ∧
          (assignOrder d o).2.2.id = o.id ∧
          (assignOrder d o).2.2.location = o.location ∧
          (assignOrder d o).2.2.weight = o.weight ∧
          (assignOrder d o).2.2.priority = o.priority ∧
          (assignOrder d o).2.2.createdAt = o.createdAt) := by
  constructor
  · intro h
    rw [assignOrder, if_neg h]
  · intro h
    rw [assignOrder]
    simp [if_pos h]

/-- Concrete drone for the C10 witness: at the base, empty, full battery. -/
def w10d : Drone :=
  { id := 7, capacity := 10, range := 10, currentLoad := 0, battery := 100,
    position := { x := 10, y := 10 }, status := DroneStatus.idle,
    assignedOrders := [], basePosition := { x := 10, y := 10 } }

/-- Concrete order for the C10 witness: at the base position, weight 2. -/
def w10o : Order :=
  { id := 1, location := { x := 10, y := 10 }, weight := 2, priority := Priority.alta,
    status := OrderStatus.pending, createdAt := 0, assignedDrone := none }

theorem w10_canCarry : canCarryOrder w10d w10o := by
  rw [canCarryOrder]
  refine ⟨by norm_num [w10d, w10o], ?_, ?_⟩
  · rw [show w10d.position = w10o.location from rfl, calculateDistance_self,
      show w10o.location = w10d.basePosition from rfl, calculateDistance_self]
    norm_num [w10d]
  · rw [show w10d.position = w10o.location from rfl, calculateDistance_self,
      show w10o.location = w10d.basePosition from rfl, calculateDistance_self]
    rw [calculateBatteryNeeded]
    norm_num [w10d]

theorem assignOrder_atomic_witness :
    canCarryOrder w10d w10o ∧
      ((assignOrder w10d w10o).1 = true ∧
        (assignOrder w10d w10o).2.1.assignedOrders =
          w10d.assignedOrders ++ [(assignOrder w10d w10o).2.2] ∧
        (assignOrder w10d w10o).2.1.currentLoad = w10d.currentLoad + w10o.weight ∧
        (assignOrder w10d w10o).2.2.status = OrderStatus.assigned ∧
        (assignOrder w10d w10o).2.2.assignedDrone = some w10d.id ∧
        (assignOrder w10d w10o).2.1.id = w10d.id ∧
        (assignOrder w10d w10o).2.1.capacity = w10d.capacity ∧
        (assignOrder w10d w10o).2.1.range = w10d.range ∧
        (assignOrder w10d w10o).2.1.battery = w10d.battery ∧
        (assignOrder w10d w10o).2.1.position = w10d.position ∧
        (assignOrder w10d w10o).2.1.status = w10d.status ∧
        (assignOrder w10d w10o).2.1.basePosition = w10d.basePosition ∧
        (assignOrder w10d w10o).2.2.id = w10o.id ∧
        (assignOrder w10d w10o).2.2.location = w10o.location ∧
        (assignOrder w10d w10o).2.2.weight = w10o.weight ∧
        (assignOrder w10d w10o).2.2.priority = w10o.priority ∧
        (assignOrder w10d w10o).2.2.createdAt = w10o.createdAt) :=
  ⟨w10_canCarry, (assignOrder_atomic w10d w10o).2 w10_canCarry⟩

theorem forall_mem_set {α : Type} {P : α → Prop} {l : List α} (h : ∀ x ∈ l, P x)
    (j : ℕ) {a : α} (ha : P a) : ∀ x ∈ l.set j a, P x := by
  intro x hx
  rcases List.mem_or_eq_of_mem_set hx with hx' | rfl
  · exact h x hx'
  · exact ha

theorem getD_pred {α : Type} {P : α → Prop} {l : List α} (h : ∀ x ∈ l, P x)
    (j : ℕ) {dflt : α} (hd : P dflt) : P (l.getD j dflt) := by
  by_cases hj : j < l.length
  · rw [List.getD_eq_getElem l dflt hj]
    exact h _ (List.getElem_mem hj)
  · rw [List.getD_eq_default l dflt (le_of_not_lt hj)]
    exact hd

/-- Any per-drone property preserved by `assignOrder` is preserved by one
`greedyAssignment` iteration on every drone of the state. -/
theorem greedyStep_drones_pred (P : Drone → Prop)
    (hP : ∀ d o, P d → P (assignOrder d o).2.1) (hPd : P dummyDrone)
    (st : GreedyState) (o : Order) (h : ∀ d ∈ st.drones, P d) :
    ∀ d ∈ (greedyStep st o).drones, P d := by
  by_cases h1 : o.status ≠ OrderStatus.pending
  · simp only [greedyStep, if_pos h1]
    exact h
  · simp only [greedyStep, if_neg h1]
    cases hscan : greedyBestScan o st.drones with
    | none => exact h
    | some j =>
        simp only []
        by_cases hr : (assignOrder (st.drones.getD j dummyDrone) o).1 = true
        · simp only [hr, if_pos]
          exact forall_mem_set h j (hP _ _ (getD_pred h j hPd))
        · simp only [hr, if_neg, Bool.false_eq_true]
          exact h

theorem greedyFold_drones_pred (P : Drone → Prop)
    (hP : ∀ d o, P d → P (assignOrder d o).2.1) (hPd : P dummyDrone) :
    ∀ (orders : List Order) (st : GreedyState), (∀ d ∈ st.drones, P d) →
      ∀ d ∈ (orders.foldl greedyStep st).drones, P d := by
  intro orders
  induction orders with
  | nil => intro st h; exact h
  | cons o t ih =>
      intro st h
      exact ih (greedyStep st o) (greedyStep_drones_pred P hP hPd st o h)

theorem capacityProcessDrone_drones_pred (P : Drone → Prop)
    (hP : ∀ d o, P d → P (assignOrder d o).2.1) (hPd : P dummyDrone)
    (now : ℝ) (st : CapState) (i : ℕ) (h : ∀ d ∈ st.drones, P d) :
    ∀ d ∈ (capacityProcessDrone now st i).drones, P d := by
  have hfold : ∀ (comb : List Order) (acc : Drone × List Order × List Order), P acc.1 →
      P ((comb.foldl
        (fun (acc : Drone × List Order × List Order) o =>
          let r := assignOrder acc.1 o
          if r.1 then (r.2.1, eraseById acc.2.1 o.id, updateOrders acc.2.2 r.2.2)
          else acc)
        acc).1) := by
    intro comb
    induction comb with
    | nil => intro acc ha; exact ha
    | cons o t ih =>
        intro acc ha
        simp only [List.foldl_cons]
        apply ih
        by_cases hr : (assignOrder acc.1 o).1 = true
        · simp only [hr, if_pos]
          exact hP _ _ ha
        · simp only [hr, if_neg, Bool.false_eq_true]
          exact ha
  by_cases hidle : (st.drones.getD i dummyDrone).status = DroneStatus.idle
  · simp only [capacityProcessDrone, if_pos hidle]
    by_cases hcomb : findBestOrderCombination st.pending (st.drones.getD i dummyDrone) now = []
    · simp only [if_pos hcomb]
      exact h
    · simp only [if_neg hcomb]
      exact forall_mem_set h i (hfold _ _ (getD_pred h i hPd))
  · simp only [capacityProcessDrone, if_neg hidle]
    exact h

theorem distProcessCluster_drones_pred (P : Drone → Prop)
    (hP : ∀ d o, P d → P (assignOrder d o).2.1) (hPd : P dummyDrone)
    (clusters : List (List Order)) (st : DistState) (i : ℕ)
    (h : ∀ d ∈ st.drones, P d) :
    ∀ d ∈ (distProcessCluster clusters st i).drones, P d := by
  have hfold : ∀ (cl : List Order) (acc : Drone × List Order × List Order), P acc.1 →
      P ((cl.foldl
        (fun (acc : Drone × List Order × List Order) o =>
          if canCarryOrder acc.1 o then
            let r := assignOrder acc.1 o
            if r.1 then (r.2.1, acc.2.1 ++ [r.2.2], updateOrders acc.2.2 r.2.2) else acc
          else acc)
        acc).1) := by
    intro cl
    induction cl with
    | nil => intro acc ha; exact ha
    | cons o t ih =>
        intro acc ha
        simp only [List.foldl_cons]
        apply ih
        by_cases hcc : canCarryOrder acc.1 o
        · simp only [if_pos hcc]
          by_cases hr : (assignOrder acc.1 o).1 = true
          · simp only [hr, if_pos]
            exact hP _ _ ha
          · simp only [hr, if_neg, Bool.false_eq_true]
            exact ha
        · simp only [if_neg hcc]
          exact ha
  by_cases hemp :
      ((sortLe (fun a b => priorityOrderVal b.priority ≤ priorityOrderVal a.priority)
          (clusters.getD i [])).foldl
        (fun (acc : Drone × List Order × List Order) o =>
          if canCarryOrder acc.1 o then
            let r := assignOrder acc.1 o
            if r.1 then (r.2.1, acc.2.1 ++ [r.2.2], updateOrders acc.2.2 r.2.2) else acc
          else acc)
        (st.drones.getD i dummyDrone, [], st.orders)).2.1 = []
  · simp only [distProcessCluster, if_pos hemp]
    exact forall_mem_set h i (hfold _ _ (getD_pred h i hPd))
  · simp only [distProcessCluster, if_neg hemp]
    exact forall_mem_set h i (hfold _ _ (getD_pred h i hPd))

/-- Any per-drone property preserved by `assignOrder` holds for all drones
after any of the four strategies. -/
theorem applyStrategy_drones_pred (P : Drone → Prop)
    (hP : ∀ d o, P d → P (assignOrder d o).2.1) (hPd : P dummyDrone)
    (orders : List Order) (drones : List Drone) (strategy : Strategy)
    (rnd : ℕ → ℕ) (now : ℝ) (h : ∀ d ∈ drones, P d) :
    ∀ d ∈ (applyOptimizationStrategy orders drones strategy rnd now).drones, P d := by
  cases strategy with
  | priority_first =>
      exact greedyFold_drones_pred P hP hPd _ ⟨drones, [], 0, []⟩ h
  | balanced_optimization =>
      exact greedyFold_drones_pred P hP hPd _ ⟨drones, [], 0, []⟩ h
  | capacity_optimization =>
      show ∀ d ∈ ((List.range drones.length).foldl (capacityProcessDrone now) _).drones, P d
      generalize hst : (⟨drones,
        orders.filter fun o => decide (o.status = OrderStatus.pending), [], orders⟩ :
          CapState) = st
      have hd : ∀ d ∈ st.drones, P d := by rw [← hst]; exact h
      clear hst h
      generalize (List.range drones.length) = idxs
      induction idxs generalizing st with
      | nil => exact hd
      | cons i t ih =>
          exact ih _ (capacityProcessDrone_drones_pred P hP hPd now st i hd)
  | distance_optimization =>
      show ∀ d ∈ ((List.range _).foldl
        (distProcessCluster (clusterOrdersByDistance orders drones.length rnd)) _).drones, P d
      generalize (clusterOrdersByDistance orders drones.length rnd) = clusters
      generalize hst : (⟨drones, [], orders⟩ : DistState) = st
      have hd : ∀ d ∈ st.drones, P d := by rw [← hst]; exact h
      clear hst h
      generalize (List.range _) = idxs
      induction idxs generalizing st with
      | nil => exact hd
      | cons i t ih =>
          exact ih _ (distProcessCluster_drones_pred P hP hPd clusters st i hd)

/-- The per-drone load invariant: `currentLoad` equals the sum of the weights
of the assigned orders and does not exceed the capacity. -/
def loadInv (d : Drone) : Prop :=
  d.currentLoad = (d.assignedOrders.map (·.weight)).sum ∧ d.currentLoad ≤ d.capacity

theorem assignOrder_loadInv (d : Drone) (o : Order) (h : loadInv d) :
    loadInv (assignOrder d o).2.1 := by
  rw [assignOrder]
  split
  · next hcc =>
      refine ⟨?_, hcc.1⟩
      simp [h.1]
  · exact h

theorem loadInv_dummyDrone : loadInv dummyDrone :=
  ⟨by simp [dummyDrone], by simp [dummyDrone]⟩

/-- C1: for every set of orders and drones and every strategy, after the
optimization pass every drone's `currentLoad` equals the sum of the weights
of its `assignedOrders` and does not exceed its `capacity` (given that the
input drones satisfy that same invariant, as freshly initialised drones do). -/
theorem optimize_capacity_invariant (strategy : Strategy) (orders : List Order)
    (drones : List Drone) (rnd : ℕ → ℕ) (now : ℝ)
    (h : ∀ d ∈ drones, loadInv d) :
    ∀ d ∈ (applyOptimizationStrategy orders drones strategy rnd now).drones, loadInv d :=
  applyStrategy_drones_pred loadInv assignOrder_loadInv loadInv_dummyDrone
    orders drones strategy rnd now h

theorem optimize_capacity_invariant_witness :
    (∀ d ∈ [w10d], loadInv d) ∧
      ∀ d ∈ (applyOptimizationStrategy [w10o] [w10d] Strategy.priority_first
          (fun _ => 0) 0).drones, loadInv d := by
  have h : ∀ d ∈ [w10d], loadInv d := by
    intro d hd
    rw [List.mem_singleton] at hd
    subst hd
    exact ⟨by simp [w10d], by norm_num [w10d]⟩
  exact ⟨h, optimize_capacity_invariant Strategy.priority_first [w10o] [w10d]
    (fun _ => 0) 0 h⟩

/-- The per-drone range fact that the admission check actually maintains: the
drone sits at its base and every individually admitted order has round trip
`base → order → base` within range. -/
def rangeInv (d : Drone) : Prop :=
  d.position = d.basePosition ∧
    ∀ o ∈ d.assignedOrders,
      calculateDistance d.basePosition o.location +
          calculateDistance o.location d.basePosition ≤ d.range

theorem assignOrder_rangeInv (d : Drone) (o : Order) (h : rangeInv d) :
    rangeInv (assignOrder d o).2.1 := by
  rw [assignOrder]
  split
  · next hcc =>
      refine ⟨h.1, ?_⟩
      intro p hp
      simp only [List.mem_append, List.mem_singleton] at hp
      rcases hp with hp | rfl
      · exact h.2 p hp
      · have := hcc.2.1
        rw [h.1] at this
        exact this
  · exact h

theorem rangeInv_dummyDrone : rangeInv dummyDrone :=
  ⟨rfl, by simp [dummyDrone]⟩

theorem singleOrder_routeDistance (d : Drone) (o : Order)
    (h : d.assignedOrders = [o]) :
    Drone.calculateRouteDistance d.optimizeRoute =
      calculateDistance d.basePosition o.location +
        calculateDistance o.location d.basePosition := by
  rw [Drone.optimizeRoute, h]
  simp [sortLe, insertLe, nnLoop, nnScanAux, List.getD, Drone.calculateRouteDistance,
    RouteStop.pos]

/-- C2 (amended): after any strategy, every drone that sits at its base and
ends up with exactly one assigned order has its route
(base, delivery stop, base) within range.  (With two or more assigned orders
the multi-stop route can exceed the range: the admission check only bounds
each order's individual round trip — see the counterexample.) -/
theorem optimize_range_invariant_single (strategy : Strategy) (orders : List Order)
    (drones : List Drone) (rnd : ℕ → ℕ) (now : ℝ)
    (h : ∀ d ∈ drones, rangeInv d) :
    ∀ d' ∈ (applyOptimizationStrategy orders drones strategy rnd now).drones,
      ∀ o, d'.assignedOrders = [o] →
        Drone.calculateRouteDistance d'.optimizeRoute ≤ d'.range := by
  intro d' hd' o ho
  have hr := applyStrategy_drones_pred rangeInv assignOrder_rangeInv rangeInv_dummyDrone
    orders drones strategy rnd now h d' hd'
  rw [singleOrder_routeDistance d' o ho]
  exact hr.2 o (by rw [ho]; exact List.mem_singleton_self o)

theorem optimize_range_invariant_single_witness :
    (∀ d ∈ [w10d], rangeInv d) ∧
      ∀ d' ∈ (applyOptimizationStrategy [w10o] [w10d] Strategy.priority_first
          (fun _ => 0) 0).drones,
        ∀ o, d'.assignedOrders = [o] →
          Drone.calculateRouteDistance d'.optimizeRoute ≤ d'.range := by
  have h : ∀ d ∈ [w10d], rangeInv d := by
    intro d hd
    rw [List.mem_singleton] at hd
    subst hd
    exact ⟨rfl, by simp [w10d]⟩
  exact ⟨h, optimize_range_invariant_single Strategy.priority_first [w10o] [w10d]
    (fun _ => 0) 0 h⟩

def c2d : Drone :=
  { id := 1, capacity := 10, range := 10, currentLoad := 0, battery := 100,
    position := { x := 10, y := 10 }, status := DroneStatus.idle,
    assignedOrders := [], basePosition := { x := 10, y := 10 } }

def c2o1 : Order :=
  { id := 1, location := { x := 10, y := 14 }, weight := 2, priority := Priority.alta,
    status := OrderStatus.pending, createdAt := 0, assignedDrone := none }

def c2o2 : Order :=
  { id := 2, location := { x := 10, y := 6 }, weight := 2, priority := Priority.baixa,
    status := OrderStatus.pending, createdAt := 0, assignedDrone := none }

def c2o1' : Order := { c2o1 with status := OrderStatus.assigned, assignedDrone := some 1 }

def c2o2' : Order := { c2o2 with status := OrderStatus.assigned, assignedDrone := some 1 }

def c2d1 : Drone := { c2d with assignedOrders := [c2o1'], currentLoad := 2 }

def c2d2 : Drone := { c2d with assignedOrders := [c2o1', c2o2'], currentLoad := 4 }

theorem c2_dist_base_o1 : calculateDistance c2d.position c2o1.location = 4 := by
  have := calculateDistance_vert 10 10 14
  rw [show c2d.position = { x := 10, y := 10 } from rfl,
    show c2o1.location = { x := 10, y := 14 } from rfl, this]
  norm_num

theorem c2_dist_o1_base : calculateDistance c2o1.location c2d.basePosition = 4 := by
  have := calculateDistance_vert 10 14 10
  rw [show c2d.basePosition = { x := 10, y := 10 } from rfl,
    show c2o1.location = { x := 10, y := 14 } from rfl, this]
  norm_num

theorem c2_dist_base_o2 : calculateDistance c2d.position c2o2.location = 4 := by
  have := calculateDistance_vert 10 10 6
  rw [show c2d.position = { x := 10, y := 10 } from rfl,
    show c2o2.location = { x := 10, y := 6 } from rfl, this]
  norm_num

theorem c2_dist_o2_base : calculateDistance c2o2.location c2d.basePosition = 4 := by
  have := calculateDistance_vert 10 6 10
  rw [show c2d.basePosition = { x := 10, y := 10 } from rfl,
    show c2o2.location = { x := 10, y := 6 } from rfl, this]
  norm_num

theorem c2_cc1 : canCarryOrder c2d c2o1 := by
  rw [canCarryOrder]
  rw [c2_dist_base_o1, c2_dist_o1_base, calculateBatteryNeeded]
  refine ⟨by norm_num [c2d, c2o1], by norm_num [c2d], by norm_num [c2d]⟩

theorem c2_cc2 : canCarryOrder c2d1 c2o2 := by
  rw [canCarryOrder]
  rw [show c2d1.position = c2d.position from rfl,
    show c2d1.basePosition = c2d.basePosition from rfl,
    c2_dist_base_o2, c2_dist_o2_base, calculateBatteryNeeded]
  refine ⟨by norm_num [c2d1, c2d, c2o2], by norm_num [c2d1, c2d], by norm_num [c2d1, c2d]⟩

theorem c2_scan1 : greedyBestScan c2o1 [c2d] = some 0 := by
  rw [greedyBestScan, greedyScanAux]
  rw [if_pos ⟨rfl, c2_cc1⟩]
  rw [if_pos (show calculateAssignmentScore c2o1 c2d > -1 by
    rw [calculateAssignmentScore, c2_dist_base_o1]
    norm_num [c2d, c2o1]
    )]
  rfl

theorem c2_scan2 : greedyBestScan c2o2 [c2d1] = some 0 := by
  rw [greedyBestScan, greedyScanAux]
  rw [if_pos ⟨rfl, c2_cc2⟩]
  rw [if_pos (show calculateAssignmentScore c2o2 c2d1 > -1 by
    rw [calculateAssignmentScore,
      show c2d1.position = c2d.position from rfl, c2_dist_base_o2]
    norm_num [c2d1, c2d, c2o2]
    )]
  rfl

theorem c2_assign1 : assignOrder c2d c2o1 = (true, c2d1, c2o1') := by
  rw [assignOrder, if_pos c2_cc1]
  simp only [Prod.mk.injEq, c2d, c2d1, c2o1, c2o1', Drone.mk.injEq, Order.mk.injEq]
  norm_num

theorem c2_assign2 : assignOrder c2d1 c2o2 = (true, c2d2, c2o2') := by
  rw [assignOrder, if_pos c2_cc2]
  simp only [Prod.mk.injEq, c2d1, c2d2, c2d, c2o2, c2o2', c2o1', c2o1,
    Drone.mk.injEq, Order.mk.injEq]
  norm_num

theorem c2_step1 :
    greedyStep ⟨[c2d], [], 0, []⟩ c2o1 = ⟨[c2d1], [⟨1, [1]⟩], 1, [c2o1']⟩ := by
  rw [greedyStep]
  rw [if_neg (show ¬c2o1.status ≠ OrderStatus.pending by simp [c2o1])]
  simp only [c2_scan1]
  rw [show ([c2d].getD 0 dummyDrone) = c2d from rfl]
  rw [c2_assign1]
  simp only [if_pos]
  rw [if_pos (show c2d1.assignedOrders.length = 1 from rfl)]
  rfl

theorem c2_step2 :
    greedyStep ⟨[c2d1], [⟨1, [1]⟩], 1, [c2o1']⟩ c2o2 =
      ⟨[c2d2], [⟨1, [1, 2]⟩], 2, [c2o1', c2o2']⟩ := by
  rw [greedyStep]
  rw [if_neg (show ¬c2o2.status ≠ OrderStatus.pending by simp [c2o2])]
  simp only [c2_scan2]
  rw [show ([c2d1].getD 0 dummyDrone) = c2d1 from rfl]
  rw [c2_assign2]
  simp only [if_pos]
  rw [if_neg (show ¬c2d2.assignedOrders.length = 1 by simp [c2d2])]
  rfl

theorem c2_greedy :
    greedyAssignment [c2o1, c2o2] [c2d] =
      { result :=
          { success := true,
            message := "2 pedidos atribuídos usando algoritmo guloso",
            assignments := [⟨1, [1, 2]⟩],
            strategy := some "greedy_assignment" },
        drones := [c2d2], orders := [c2o1', c2o2'] } := by
  rw [greedyAssignment]
  simp only [List.foldl_cons, List.foldl_nil, c2_step1, c2_step2]
  rfl

theorem c2_sort :
    sortLe (fun a b => priorityFirstCmp 0 a b ≤ 0) [c2o1, c2o2] = [c2o1, c2o2] := by
  rw [sortLe, sortLe, sortLe, insertLe, insertLe]
  rw [if_pos (show priorityFirstCmp 0 c2o1 c2o2 ≤ 0 by
    rw [priorityFirstCmp]
    norm_num [c2o1, c2o2, priorityScores100])]

theorem c2_apply :
    (applyOptimizationStrategy [c2o1, c2o2] [c2d] Strategy.priority_first
        (fun _ => 0) 0).drones = [c2d2] := by
  show (priorityFirstOptimization [c2o1, c2o2] [c2d] 0).drones = [c2d2]
  rw [priorityFirstOptimization]
  simp only [c2_sort, c2_greedy]

theorem c2_route_sort :
    sortLe (fun a b => priorityOrderVal b.priority ≤ priorityOrderVal a.priority)
      [c2o1', c2o2'] = [c2o1', c2o2'] := by
  rw [sortLe, sortLe, sortLe, insertLe, insertLe]
  rw [if_pos (show priorityOrderVal c2o2'.priority ≤ priorityOrderVal c2o1'.priority by
    norm_num [c2o1', c2o2', c2o1, c2o2, priorityOrderVal])]

theorem nnScanAux_nil (current : Point) (j : ℕ) (acc : ℕ × ℝ) :
    nnScanAux current [] j acc = acc := rfl

theorem c2_scanA :
    nnScanAux { x := 10, y := 10 } [c2o2'] 1
      (0, calculateDistance { x := 10, y := 10 } c2o1'.location) = (0, 4) := by
  rw [nnScanAux, nnScanAux]
  rw [show c2o1'.location = { x := 10, y := 14 } from rfl,
    show c2o2'.location = { x := 10, y := 6 } from rfl]
  rw [calculateDistance_vert, calculateDistance_vert]
  rw [if_neg (show ¬|(6 : ℝ) - 10| * priorityWeight c2o2'.priority < |(14 : ℝ) - 10| by
    norm_num [c2o2', c2o2, priorityWeight])]
  norm_num

theorem c2_route :
    Drone.optimizeRoute c2d2 =
      [RouteStop.base { x := 10, y := 10 },
        RouteStop.delivery c2o1'.location c2o1',
        RouteStop.delivery c2o2'.location c2o2',
        RouteStop.base { x := 10, y := 10 }] := by
  rw [Drone.optimizeRoute]
  rw [if_neg (show ¬c2d2.assignedOrders = [] by simp [c2d2])]
  rw [show c2d2.assignedOrders = [c2o1', c2o2'] from rfl,
    show c2d2.basePosition = { x := 10, y := 10 } from rfl]
  rw [c2_route_sort]
  simp only [nnLoop.eq_def, c2_scanA, nnScanAux_nil, List.getD_cons_zero, List.eraseIdx]
  rfl

/-- C2 (counterexample): a single drone at the depot (10,10) with range 10
takes both orders (10,14) and (10,6) — each individual round trip is 8 ≤ 10 —
but its built route depot → (10,14) → (10,6) → depot has length 16 > 10, so
the claimed range invariant fails for vehicles with two assigned orders. -/
theorem c2_counterexample :
    ∃ d' ∈ (applyOptimizationStrategy [c2o1, c2o2] [c2d] Strategy.priority_first
        (fun _ => 0) 0).drones,
      d'.assignedOrders ≠ [] ∧
        ¬Drone.calculateRouteDistance d'.optimizeRoute ≤ d'.range := by
  refine ⟨c2d2, by rw [c2_apply]; exact List.mem_singleton_self _, ?_, ?_⟩
  · simp [c2d2]
  · rw [c2_route]
    simp only [Drone.calculateRouteDistance, RouteStop.pos]
    rw [show c2o1'.location = { x := 10, y := 14 } from rfl,
      show c2o2'.location = { x := 10, y := 6 } from rfl]
    rw [calculateDistance_vert, calculateDistance_vert, calculateDistance_vert,
      show c2d2.range = 10 from rfl]
    norm_num

/-- C8: with zero orders or zero drones, `optimizeDeliveries` returns a
normal result object flagged `success: false` with no assignments (the
function is total — no exception is raised). -/
theorem optimizeDeliveries_empty_input (orders : List Order) (drones : List Drone)
    (rnd : ℕ → ℕ) (now : ℝ) (h : orders = [] ∨ drones = []) :
    (optimizeDeliveries orders drones rnd now).result.success = false ∧
      (optimizeDeliveries orders drones rnd now).result.assignments = [] := by
  rw [optimizeDeliveries, if_pos h]
  exact ⟨rfl, rfl⟩

theorem optimizeDeliveries_empty_input_witness :
    (([] : List Order) = [] ∨ [w10d] = []) ∧
      (optimizeDeliveries [] [w10d] (fun _ => 0) 0).result.success = false ∧
      (optimizeDeliveries [] [w10d] (fun _ => 0) 0).result.assignments = [] :=
  ⟨Or.inl rfl, optimizeDeliveries_empty_input [] [w10d] (fun _ => 0) 0 (Or.inl rfl)⟩

/-- The selection rule in the claim's words (C5, spec §4.3): at each step
choose the unvisited order minimizing
`distance(current, order.location) * priority_weight(order.priority)`, with
ties resolved to the first encountered candidate.  The incumbent's recorded
score is its weighted distance (this is where the source differs: it records
the incumbent's unweighted distance). -/
def specNNScanAux (current : Point) : List Order → ℕ → ℕ × ℝ → ℕ × ℝ
  | [], _, acc => acc
  | o :: rest, j, acc =>
      let score := calculateDistance current o.location * priorityWeight o.priority
      specNNScanAux current rest (j + 1) (if score < acc.2 then (j, score) else acc)

theorem specNNScanAux_fst_lt (current : Point) (t : List Order) :
    ∀ (j : ℕ) (acc : ℕ × ℝ), acc.1 < j →
      (specNNScanAux current t j acc).1 < j + t.length := by
  induction t with
  | nil => intro j acc h; simpa [specNNScanAux] using h
  | cons o rest ih =>
      intro j acc h
      simp only [specNNScanAux]
      have h' : (if calculateDistance current o.location * priorityWeight o.priority < acc.2
          then (j, calculateDistance current o.location * priorityWeight o.priority)
          else acc).1 < j + 1 := by
        split
        · exact Nat.lt_succ_self j
        · exact Nat.lt_succ_of_lt h
      have := ih (j + 1) _ h'
      simp only [List.length_cons]
      omega

theorem specNNScanAux_fst_lt' (current : Point) (h : Order) (t : List Order) :
    (specNNScanAux current t 1
        (0, calculateDistance current h.location * priorityWeight h.priority)).1 <
      (h :: t).length := by
  have := specNNScanAux_fst_lt current t 1
    (0, calculateDistance current h.location * priorityWeight h.priority) Nat.zero_lt_one
  simp only [List.length_cons]
  omega

/-- The route-construction loop in the claim's words (C5): repeatedly pick
the weighted-score argmin and advance. -/
def specNNLoop (u : List Order) (current : Point) : List RouteStop :=
  match u with
  | [] => []
  | h :: t =>
      let s := specNNScanAux current t 1
        (0, calculateDistance current h.location * priorityWeight h.priority)
      let chosen := (h :: t).getD s.1 dummyOrder
      RouteStop.delivery chosen.location chosen ::
        specNNLoop ((h :: t).eraseIdx s.1) chosen.location
termination_by u.length
decreasing_by
  have h1 := List.length_eraseIdx_add_one (specNNScanAux_fst_lt' current h t)
  omega

/-- The route builder in the claim's words (C5): depot, weighted-argmin
visiting sequence over the assigned orders as given, depot. -/
def specOptimizeRoute (d : Drone) : List RouteStop :=
  if d.assignedOrders = [] then []
  else
    (RouteStop.base d.basePosition :: specNNLoop d.assignedOrders d.basePosition) ++
      [RouteStop.base d.basePosition]

theorem insertLe_of_head (le : Order → Order → Prop) (a : Order) (l : List Order)
    (h : ∀ b ∈ l, le a b) : insertLe le a l = a :: l := by
  cases l with
  | nil => rfl
  | cons b t => rw [insertLe, if_pos (h b (List.mem_cons_self b t))]

theorem sortLe_eq_self (le : Order → Order → Prop) (l : List Order)
    (h : ∀ a ∈ l, ∀ b ∈ l, le a b) : sortLe le l = l := by
  induction l with
  | nil => rfl
  | cons a t ih =>
      rw [sortLe, ih fun x hx y hy =>
        h x (List.mem_cons_of_mem a hx) y (List.mem_cons_of_mem a hy)]
      exact insertLe_of_head le a t fun b hb =>
        h a (List.mem_cons_self a t) b (List.mem_cons_of_mem a hb)

theorem nnScanAux_eq_spec_of_baixa (current : Point) (t : List Order)
    (hb : ∀ o ∈ t, o.priority = Priority.baixa) :
    ∀ (j : ℕ) (acc : ℕ × ℝ), nnScanAux current t j acc = specNNScanAux current t j acc := by
  induction t with
  | nil => intro j acc; rfl
  | cons o rest ih =>
      intro j acc
      have h1 : priorityWeight o.priority = 1 := by
        rw [hb o (List.mem_cons_self o rest)]
        norm_num [priorityWeight]
      rw [nnScanAux, specNNScanAux]
      simp only [h1, mul_one]
      exact ih (fun p hp => hb p (List.mem_cons_of_mem o hp)) (j + 1) _

theorem nnLoop_eq_spec_of_baixa (u : List Order) (current : Point)
    (hb : ∀ o ∈ u, o.priority = Priority.baixa) :
    nnLoop u current = specNNLoop u current := by
  induction u, current using nnLoop.induct with
  | case1 current =>
      rw [nnLoop.eq_def, specNNLoop.eq_def]
  | case2 current h t s chosen ih =>
      have hscan := nnScanAux_eq_spec_of_baixa current t
        (fun o ho => hb o (List.mem_cons_of_mem h ho)) 1
        (0, calculateDistance current h.location)
      have hpw : priorityWeight h.priority = 1 := by
        rw [hb h (List.mem_cons_self h t)]
        norm_num [priorityWeight]
      rw [nnLoop.eq_def, specNNLoop.eq_def]
      simp only [hpw, mul_one, ← hscan]
      rw [ih (fun o ho => hb o (List.mem_of_mem_eraseIdx ho))]

/-- C5 (amended): when all assigned orders have priority `'baixa'` (weight
1.0) the source route equals the claimed weighted-argmin construction, ties
to the first encountered; with mixed priorities the claim fails (see the
counterexample): the source compares a candidate's weighted distance against
the incumbent's *unweighted* distance. -/
theorem optimizeRoute_eq_spec_of_all_baixa (d : Drone)
    (hb : ∀ o ∈ d.assignedOrders, o.priority = Priority.baixa) :
    Drone.optimizeRoute d = specOptimizeRoute d := by
  rw [Drone.optimizeRoute, specOptimizeRoute]
  by_cases he : d.assignedOrders = []
  · rw [if_pos he, if_pos he]
  · rw [if_neg he, if_neg he]
    rw [sortLe_eq_self _ _ fun a ha b hb2 => by rw [hb a ha, hb b hb2]]
    simp only [nnLoop_eq_spec_of_baixa _ _ hb]

def c5w : Drone := { c2d with assignedOrders := [c2o2] }

theorem optimizeRoute_eq_spec_of_all_baixa_witness :
    (∀ o ∈ c5w.assignedOrders, o.priority = Priority.baixa) ∧
      Drone.optimizeRoute c5w = specOptimizeRoute c5w := by
  have hb : ∀ o ∈ c5w.assignedOrders, o.priority = Priority.baixa := by
    intro o ho
    simp only [c5w, List.mem_singleton] at ho
    subst ho
    rfl
  exact ⟨hb, optimizeRoute_eq_spec_of_all_baixa c5w hb⟩

def c5a : Order :=
  { id := 1, location := { x := 10, y := 20 }, weight := 1, priority := Priority.alta,
    status := OrderStatus.pending, createdAt := 0, assignedDrone := none }

def c5b : Order :=
  { id := 2, location := { x := 10, y := 18 }, weight := 1, priority := Priority.baixa,
    status := OrderStatus.pending, createdAt := 0, assignedDrone := none }

def c5d : Drone :=
  { id := 1, capacity := 100, range := 100, currentLoad := 0, battery := 100,
    position := { x := 10, y := 10 }, status := DroneStatus.idle,
    assignedOrders := [c5a, c5b], basePosition := { x := 10, y := 10 } }

theorem specNNScanAux_nil (current : Point) (j : ℕ) (acc : ℕ × ℝ) :
    specNNScanAux current [] j acc = acc := rfl

theorem c5_sort :
    sortLe (fun a b => priorityOrderVal b.priority ≤ priorityOrderVal a.priority)
      [c5a, c5b] = [c5a, c5b] := by
  rw [sortLe, sortLe, sortLe, insertLe, insertLe]
  rw [if_pos (show priorityOrderVal c5b.priority ≤ priorityOrderVal c5a.priority by
    norm_num [c5a, c5b, priorityOrderVal])]

theorem c5_scan_code :
    nnScanAux { x := 10, y := 10 } [c5b] 1
      (0, calculateDistance { x := 10, y := 10 } c5a.location) = (1, 8) := by
  rw [nnScanAux, nnScanAux]
  rw [show c5a.location = { x := 10, y := 20 } from rfl,
    show c5b.location = { x := 10, y := 18 } from rfl]
  rw [calculateDistance_vert, calculateDistance_vert]
  rw [if_pos (show |(18 : ℝ) - 10| * priorityWeight c5b.priority < |(20 : ℝ) - 10| by
    norm_num [c5b, priorityWeight])]
  norm_num

theorem c5_scan_spec :
    specNNScanAux { x := 10, y := 10 } [c5b] 1
      (0, calculateDistance { x := 10, y := 10 } c5a.location *
        priorityWeight c5a.priority) =
      (0, calculateDistance { x := 10, y := 10 } c5a.location *
        priorityWeight c5a.priority) := by
  rw [specNNScanAux, specNNScanAux]
  rw [if_neg (show ¬calculateDistance { x := 10, y := 10 } c5b.location *
      priorityWeight c5b.priority <
      calculateDistance { x := 10, y := 10 } c5a.location * priorityWeight c5a.priority by
    rw [show c5a.location = { x := 10, y := 20 } from rfl,
      show c5b.location = { x := 10, y := 18 } from rfl]
    rw [calculateDistance_vert, calculateDistance_vert]
    norm_num [c5a, c5b, priorityWeight])]

theorem c5_route_code :
    Drone.optimizeRoute c5d =
      [RouteStop.base { x := 10, y := 10 },
        RouteStop.delivery c5b.location c5b,
        RouteStop.delivery c5a.location c5a,
        RouteStop.base { x := 10, y := 10 }] := by
  rw [Drone.optimizeRoute]
  rw [if_neg (show ¬c5d.assignedOrders = [] by simp [c5d])]
  rw [show c5d.assignedOrders = [c5a, c5b] from rfl,
    show c5d.basePosition = { x := 10, y := 10 } from rfl]
  rw [c5_sort]
  simp only [nnLoop.eq_def, c5_scan_code, nnScanAux_nil, List.getD_cons_zero,
    List.getD_cons_succ, List.eraseIdx]
  rfl

theorem c5_route_spec :
    specOptimizeRoute c5d =
      [RouteStop.base { x := 10, y := 10 },
        RouteStop.delivery c5a.location c5a,
        RouteStop.delivery c5b.location c5b,
        RouteStop.base { x := 10, y := 10 }] := by
  rw [specOptimizeRoute]
  rw [if_neg (show ¬c5d.assignedOrders = [] by simp [c5d])]
  rw [show c5d.assignedOrders = [c5a, c5b] from rfl,
    show c5d.basePosition = { x := 10, y := 10 } from rfl]
  simp only [specNNLoop.eq_def, c5_scan_spec, specNNScanAux_nil, List.getD_cons_zero,
    List.getD_cons_succ, List.eraseIdx]
  rfl

/-- C5 (counterexample): orders A (High, distance 10, weighted score 7) and
B (Low, distance 8, weighted score 8) from the depot.  The claimed rule picks
A first (7 < 8); the source picks B first, because it compares B's weighted
distance 8 against A's *unweighted* distance 10.  So the source route differs
from the claimed weighted-argmin route. -/
theorem c5_counterexample :
    Drone.optimizeRoute c5d ≠ specOptimizeRoute c5d ∧
      Drone.optimizeRoute c5d =
        [RouteStop.base { x := 10, y := 10 },
          RouteStop.delivery c5b.location c5b,
          RouteStop.delivery c5a.location c5a,
          RouteStop.base { x := 10, y := 10 }] ∧
      specOptimizeRoute c5d =
        [RouteStop.base { x := 10, y := 10 },
          RouteStop.delivery c5a.location c5a,
          RouteStop.delivery c5b.location c5b,
          RouteStop.base { x := 10, y := 10 }] := by
  refine ⟨?_, c5_route_code, c5_route_spec⟩
  rw [c5_route_code, c5_route_spec]
  simp [c5a, c5b]

theorem ncScanAux_fst_lt (p : Point) (t : List Point) :
    ∀ (j : ℕ) (acc : ℕ × ℝ), acc.1 < j → (ncScanAux p t j acc).1 < j + t.length := by
  induction t with
  | nil => intro j acc h; simpa [ncScanAux] using h
  | cons c rest ih =>
      intro j acc h
      simp only [ncScanAux]
      have h' : (if calculateDistance p c < acc.2 then (j, calculateDistance p c)
          else acc).1 < j + 1 := by
        split
        · exact Nat.lt_succ_self j
        · exact Nat.lt_succ_of_lt h
      have := ih (j + 1) _ h'
      simp only [List.length_cons]
      omega

theorem nearestCentroidIdx_lt (p : Point) (centroids : List Point)
    (h : centroids ≠ []) : nearestCentroidIdx p centroids < centroids.length := by
  cases centroids with
  | nil => exact absurd rfl h
  | cons c0 rest =>
      rw [nearestCentroidIdx]
      have := ncScanAux_fst_lt p rest 1 (0, calculateDistance p c0) Nat.zero_lt_one
      simp only [List.length_cons]
      omega

/-- The multiset of orders contained in a list of clusters. -/
def clusterContents : List (List Order) → Multiset Order
  | [] => 0
  | c :: t => (c : Multiset Order) + clusterContents t

theorem clusterContents_set_append (cs : List (List Order)) (o : Order) :
    ∀ j, j < cs.length →
      clusterContents (cs.set j (cs.getD j [] ++ [o])) = clusterContents cs + {o} := by
  induction cs with
  | nil => intro j hj; cases hj
  | cons c t ih =>
      intro j hj
      cases j with
      | zero =>
          rw [List.set_cons_zero, List.getD_cons_zero]
          rw [clusterContents, clusterContents]
          rw [show ((c ++ [o] : List Order) : Multiset Order) = (c : Multiset Order) + {o} by
            rw [← Multiset.coe_singleton o, ← Multiset.coe_add]]
          abel
      | succ j =>
          rw [List.set_cons_succ, List.getD_cons_succ]
          rw [clusterContents, clusterContents]
          rw [ih j (by simpa using hj)]
          abel

theorem assignFold_spec (centroids : List Point) (hc : centroids ≠ []) :
    ∀ (orders : List Order) (cs : List (List Order)), centroids.length ≤ cs.length →
      (orders.foldl
        (fun cs o =>
          let j := nearestCentroidIdx o.location centroids
          cs.set j (cs.getD j [] ++ [o]))
        cs).length = cs.length ∧
      clusterContents
        (orders.foldl
          (fun cs o =>
            let j := nearestCentroidIdx o.location centroids
            cs.set j (cs.getD j [] ++ [o]))
          cs) = clusterContents cs + (orders : Multiset Order) := by
  intro orders
  induction orders with
  | nil => intro cs hlen; exact ⟨rfl, by simp⟩
  | cons o t ih =>
      intro cs hlen
      simp only [List.foldl_cons]
      have hj : nearestCentroidIdx o.location centroids < cs.length :=
        lt_of_lt_of_le (nearestCentroidIdx_lt o.location centroids hc) hlen
      have hrec := ih (cs.set (nearestCentroidIdx o.location centroids)
        (cs.getD (nearestCentroidIdx o.location centroids) [] ++ [o]))
        (by rw [List.length_set]; exact hlen)
      refine ⟨by rw [hrec.1, List.length_set], ?_⟩
      rw [hrec.2, clusterContents_set_append cs o _ hj]
      rw [show ((o :: t : List Order) : Multiset Order) = {o} + (t : Multiset Order) by
        rw [← Multiset.cons_coe, ← Multiset.singleton_add]]
      abel

theorem clusterContents_filter (cs : List (List Order)) :
    clusterContents (cs.filter fun c => decide (c ≠ [])) = clusterContents cs := by
  induction cs with
  | nil => rfl
  | cons c t ih =>
      by_cases hc : c = []
      · subst hc
        rw [List.filter_cons_of_neg (by simp)]
        rw [ih, clusterContents]
        simp
  
      · rw [List.filter_cons_of_pos (by simp [hc])]
        rw [clusterContents, clusterContents, ih]

theorem updateCentroids_length (centroids : List Point) (clusters : List (List Order)) :
    (updateCentroids centroids clusters).length = centroids.length := by
  simp [updateCentroids]

theorem kmeansIterate_length (orders : List Order) (k : ℕ) :
    ∀ (n : ℕ) (centroids : List Point),
      (kmeansIterate orders k n centroids).length = centroids.length := by
  intro n
  induction n with
  | zero => intro c; rfl
  | succ n ih =>
      intro c
      rw [kmeansIterate, ih, kmeansStep, updateCentroids_length]

theorem filtered_cluster_props (A : List (List Order)) (orders : List Order)
    (hA2 : clusterContents A = (orders : Multiset Order)) (hne : orders ≠ []) :
    1 ≤ (A.filter fun c => decide (c ≠ [])).length ∧
      (∀ c ∈ A.filter fun c => decide (c ≠ []), c ≠ []) ∧
      clusterContents (A.filter fun c => decide (c ≠ [])) = (orders : Multiset Order) := by
  have hcontents := clusterContents_filter A
  refine ⟨?_, ?_, by rw [hcontents, hA2]⟩
  · rw [Nat.one_le_iff_ne_zero]
    intro h0
    have hF : A.filter (fun c => decide (c ≠ [])) = [] := List.length_eq_zero.1 h0
    rw [hF] at hcontents
    have : (0 : Multiset Order) = (orders : Multiset Order) := by
      rw [← hA2, ← hcontents]
      rfl
    have := this.symm
    rw [Multiset.coe_eq_zero] at this
    exact hne this
  · intro c hc
    have := List.of_mem_filter hc
    simpa using this

/-- C9 (amended): with 6 orders and k = 2 vehicles, the clustering step
produces between 1 and 2 non-empty clusters (not always exactly 2 — see the
counterexample), and every input order lands in exactly one cluster: the
multiset of orders across the returned clusters is exactly the input. -/
theorem cluster_partition_6_2 (orders : List Order) (rnd : ℕ → ℕ)
    (h6 : orders.length = 6) :
    1 ≤ (clusterOrdersByDistance orders 2 rnd).length ∧
      (clusterOrdersByDistance orders 2 rnd).length ≤ 2 ∧
      (∀ c ∈ clusterOrdersByDistance orders 2 rnd, c ≠ []) ∧
      clusterContents (clusterOrdersByDistance orders 2 rnd) = (orders : Multiset Order) := by
  rw [clusterOrdersByDistance]
  rw [if_neg (by rw [h6]; norm_num)]
  simp only []
  have hclen :
      (kmeansIterate orders 2 3 ((List.range 2).map fun i =>
        (orders.getD (rnd i % orders.length) dummyOrder).location)).length = 2 := by
    rw [kmeansIterate_length]
    simp
  have hcne :
      (kmeansIterate orders 2 3 ((List.range 2).map fun i =>
        (orders.getD (rnd i % orders.length) dummyOrder).location)) ≠ [] := by
    intro h
    rw [h] at hclen
    cases hclen
  have hspec := assignFold_spec _ hcne orders (List.replicate 2 ([] : List Order))
    (by rw [hclen]; simp)
  rw [assignToClusters]
  have hA1 := hspec.1
  have hA2 := hspec.2
  rw [List.length_replicate] at hA1
  have hrepl : clusterContents (List.replicate 2 ([] : List Order)) = 0 := by
    show clusterContents [[], []] = 0
    rw [clusterContents, clusterContents, clusterContents]
    simp
  rw [hrepl, zero_add] at hA2
  have hne : orders ≠ [] := by
    intro h
    rw [h] at h6
    cases h6
  have hprops := filtered_cluster_props _ orders hA2 hne
  exact ⟨hprops.1, le_trans (List.length_filter_le _ _) (le_of_eq hA1),
    hprops.2.1, hprops.2.2⟩

def c9o (i : ℕ) : Order :=
  { id := i, location := { x := 10, y := 10 }, weight := 1, priority := Priority.baixa,
    status := OrderStatus.pending, createdAt := 0, assignedDrone := none }

def c9orders : List Order := [c9o 1, c9o 2, c9o 3, c9o 4, c9o 5, c9o 6]

theorem nearestCentroidIdx_pair_same (p c : Point) : nearestCentroidIdx p [c, c] = 0 := by
  rw [nearestCentroidIdx, ncScanAux, ncScanAux, if_neg (lt_irrefl _)]

theorem c9_assign :
    assignToClusters c9orders [{ x := 10, y := 10 }, { x := 10, y := 10 }] 2 =
      [[c9o 1, c9o 2, c9o 3, c9o 4, c9o 5, c9o 6], []] := by
  have hloc : ∀ i, (c9o i).location = { x := 10, y := 10 } := fun i => rfl
  rw [assignToClusters]
  simp only [List.foldl_cons, List.foldl_nil, hloc, nearestCentroidIdx_pair_same]
  rfl

theorem c9_update :
    updateCentroids [{ x := 10, y := 10 }, { x := 10, y := 10 }]
      [[c9o 1, c9o 2, c9o 3, c9o 4, c9o 5, c9o 6], []] =
      [{ x := 10, y := 10 }, { x := 10, y := 10 }] := by
  rw [updateCentroids]
  simp only [List.enum, List.enumFrom, List.map_cons, List.map_nil]
  norm_num [c9o, Point.mk.injEq]

theorem c9_step :
    kmeansStep c9orders 2 [{ x := 10, y := 10 }, { x := 10, y := 10 }] =
      [{ x := 10, y := 10 }, { x := 10, y := 10 }] := by
  rw [kmeansStep, c9_assign, c9_update]

theorem c9_cluster :
    clusterOrdersByDistance c9orders 2 (fun _ => 0) =
      [[c9o 1, c9o 2, c9o 3, c9o 4, c9o 5, c9o 6]] := by
  rw [clusterOrdersByDistance]
  rw [if_neg (show ¬c9orders.length ≤ 2 by norm_num [c9orders])]
  simp only []
  rw [show ((List.range 2).map fun i =>
      (c9orders.getD ((fun _ => 0) i % c9orders.length) dummyOrder).location) =
      [{ x := 10, y := 10 }, { x := 10, y := 10 }] from rfl]
  rw [kmeansIterate, c9_step, kmeansIterate, c9_step, kmeansIterate, c9_step,
    kmeansIterate]
  rw [c9_assign]
  rw [List.filter_cons_of_pos (by simp), List.filter_cons_of_neg (by simp),
    List.filter_nil]

/-- C9 (counterexample): with 6 orders (here all at the same point) and both
random centroid draws selecting index 0, the two centroids coincide, every
order ties to centroid 0 and the second cluster stays empty — the clustering
returns exactly ONE non-empty cluster, not exactly 2. -/
theorem c9_counterexample :
    c9orders.length = 6 ∧
      (clusterOrdersByDistance c9orders 2 fun _ => 0).length = 1 := by
  refine ⟨rfl, ?_⟩
  rw [c9_cluster]
  rfl

theorem cluster_partition_6_2_witness :
    c9orders.length = 6 ∧
      (1 ≤ (clusterOrdersByDistance c9orders 2 fun _ => 0).length ∧
        (clusterOrdersByDistance c9orders 2 fun _ => 0).length ≤ 2 ∧
        (∀ c ∈ clusterOrdersByDistance c9orders 2 fun _ => 0, c ≠ []) ∧
        clusterContents (clusterOrdersByDistance c9orders 2 fun _ => 0) =
          (c9orders : Multiset Order)) :=
  ⟨rfl, cluster_partition_6_2 c9orders (fun _ => 0) rfl⟩

def c6a : Order :=
  { id := 1, location := { x := 10, y := 10 }, weight := 1, priority := Priority.baixa,
    status := OrderStatus.pending, createdAt := 0, assignedDrone := none }

def c6b : Order :=
  { id := 2, location := { x := 10, y := 0 }, weight := 1, priority := Priority.baixa,
    status := OrderStatus.pending, createdAt := 0, assignedDrone := none }

def c6c : Order :=
  { id := 3, location := { x := 10, y := 20 }, weight := 1, priority := Priority.baixa,
    status := OrderStatus.pending, createdAt := 0, assignedDrone := none }

def c6orders : List Order := [c6a, c6b, c6c]

theorem c6_assign1 :
    assignToClusters c6orders [{ x := 10, y := 10 }, { x := 10, y := 10 }] 2 =
      [[c6a, c6b, c6c], []] := by
  rw [assignToClusters]
  simp only [List.foldl_cons, List.foldl_nil,
    show c6a.location = { x := 10, y := 10 } from rfl,
    show c6b.location = { x := 10, y := 0 } from rfl,
    show c6c.location = { x := 10, y := 20 } from rfl,
    nearestCentroidIdx_pair_same]
  rfl

theorem c6_update1 :
    updateCentroids [{ x := 10, y := 10 }, { x := 10, y := 10 }] [[c6a, c6b, c6c], []] =
      [{ x := 10, y := 10 }, { x := 10, y := 10 }] := by
  rw [updateCentroids]
  simp only [List.enum, List.enumFrom, List.map_cons, List.map_nil]
  norm_num [c6a, c6b, c6c, Point.mk.injEq]

theorem c6_step1 :
    kmeansStep c6orders 2 [{ x := 10, y := 10 }, { x := 10, y := 10 }] =
      [{ x := 10, y := 10 }, { x := 10, y := 10 }] := by
  rw [kmeansStep, c6_assign1, c6_update1]

theorem c6_run1 :
    clusterOrdersByDistance c6orders 2 (fun _ => 0) = [[c6a, c6b, c6c]] := by
  rw [clusterOrdersByDistance]
  rw [if_neg (show ¬c6orders.length ≤ 2 by norm_num [c6orders])]
  simp only []
  rw [show ((List.range 2).map fun i =>
      (c6orders.getD ((fun _ => 0) i % c6orders.length) dummyOrder).location) =
      [{ x := 10, y := 10 }, { x := 10, y := 10 }] from rfl]
  rw [kmeansIterate, c6_step1, kmeansIterate, c6_step1, kmeansIterate, c6_step1,
    kmeansIterate]
  rw [c6_assign1]
  rw [List.filter_cons_of_pos (by simp), List.filter_cons_of_neg (by simp),
    List.filter_nil]

theorem c6_nA1 :
    nearestCentroidIdx { x := 10, y := 10 } [{ x := 10, y := 0 }, { x := 10, y := 20 }] = 0 := by
  rw [nearestCentroidIdx, ncScanAux, ncScanAux]
  rw [calculateDistance_vert, calculateDistance_vert]
  rw [if_neg (by norm_num)]

theorem c6_nB1 :
    nearestCentroidIdx { x := 10, y := 0 } [{ x := 10, y := 0 }, { x := 10, y := 20 }] = 0 := by
  rw [nearestCentroidIdx, ncScanAux, ncScanAux]
  rw [calculateDistance_vert, calculateDistance_vert]
  rw [if_neg (by norm_num)]

theorem c6_nC1 :
    nearestCentroidIdx { x := 10, y := 20 } [{ x := 10, y := 0 }, { x := 10, y := 20 }] = 1 := by
  rw [nearestCentroidIdx, ncScanAux, ncScanAux]
  rw [calculateDistance_vert, calculateDistance_vert]
  rw [if_pos (by norm_num)]

theorem c6_assign2 :
    assignToClusters c6orders [{ x := 10, y := 0 }, { x := 10, y := 20 }] 2 =
      [[c6a, c6b], [c6c]] := by
  rw [assignToClusters]
  rw [show c6orders = [c6a, c6b, c6c] from rfl]
  simp only [List.foldl_cons, List.foldl_nil,
    show c6a.location = { x := 10, y := 10 } from rfl,
    show c6b.location = { x := 10, y := 0 } from rfl,
    show c6c.location = { x := 10, y := 20 } from rfl,
    c6_nA1, c6_nB1, c6_nC1]
  rfl

theorem c6_update2 :
    updateCentroids [{ x := 10, y := 0 }, { x := 10, y := 20 }] [[c6a, c6b], [c6c]] =
      [{ x := 10, y := 5 }, { x := 10, y := 20 }] := by
  rw [updateCentroids]
  simp only [List.enum, List.enumFrom, List.map_cons, List.map_nil,
    List.getD_cons_zero, List.getD_cons_succ,
    if_neg (List.cons_ne_nil c6a [c6b]), if_neg (List.cons_ne_nil c6c [])]
  norm_num [c6a, c6b, c6c, Point.mk.injEq]

theorem c6_nA2 :
    nearestCentroidIdx { x := 10, y := 10 } [{ x := 10, y := 5 }, { x := 10, y := 20 }] = 0 := by
  rw [nearestCentroidIdx, ncScanAux, ncScanAux]
  rw [calculateDistance_vert, calculateDistance_vert]
  rw [if_neg (by norm_num)]

theorem c6_nB2 :
    nearestCentroidIdx { x := 10, y := 0 } [{ x := 10, y := 5 }, { x := 10, y := 20 }] = 0 := by
  rw [nearestCentroidIdx, ncScanAux, ncScanAux]
  rw [calculateDistance_vert, calculateDistance_vert]
  rw [if_neg (by norm_num)]

theorem c6_nC2 :
    nearestCentroidIdx { x := 10, y := 20 } [{ x := 10, y := 5 }, { x := 10, y := 20 }] = 1 := by
  rw [nearestCentroidIdx, ncScanAux, ncScanAux]
  rw [calculateDistance_vert, calculateDistance_vert]
  rw [if_pos (by norm_num)]

theorem c6_assign3 :
    assignToClusters c6orders [{ x := 10, y := 5 }, { x := 10, y := 20 }] 2 =
      [[c6a, c6b], [c6c]] := by
  rw [assignToClusters]
  rw [show c6orders = [c6a, c6b, c6c] from rfl]
  simp only [List.foldl_cons, List.foldl_nil,
    show c6a.location = { x := 10, y := 10 } from rfl,
    show c6b.location = { x := 10, y := 0 } from rfl,
    show c6c.location = { x := 10, y := 20 } from rfl,
    c6_nA2, c6_nB2, c6_nC2]
  rfl

theorem c6_update3 :
    updateCentroids [{ x := 10, y := 5 }, { x := 10, y := 20 }] [[c6a, c6b], [c6c]] =
      [{ x := 10, y := 5 }, { x := 10, y := 20 }] := by
  rw [updateCentroids]
  simp only [List.enum, List.enumFrom, List.map_cons, List.map_nil,
    List.getD_cons_zero, List.getD_cons_succ,
    if_neg (List.cons_ne_nil c6a [c6b]), if_neg (List.cons_ne_nil c6c [])]
  norm_num [c6a, c6b, c6c, Point.mk.injEq]

theorem c6_run2 :
    clusterOrdersByDistance c6orders 2 (fun i => i + 1) = [[c6a, c6b], [c6c]] := by
  rw [clusterOrdersByDistance]
  rw [if_neg (show ¬c6orders.length ≤ 2 by norm_num [c6orders])]
  simp only []
  rw [show ((List.range 2).map fun i =>
      (c6orders.getD ((fun i => i + 1) i % c6orders.length) dummyOrder).location) =
      [{ x := 10, y := 0 }, { x := 10, y := 20 }] from rfl]
  rw [kmeansIterate, kmeansStep, c6_assign2, c6_update2]
  rw [kmeansIterate, kmeansStep, c6_assign3, c6_update3]
  rw [kmeansIterate, kmeansStep, c6_assign3, c6_update3]
  rw [kmeansIterate]
  rw [c6_assign3]
  rw [List.filter_cons_of_pos (by rw [decide_eq_true_eq]; exact List.cons_ne_nil _ _),
    List.filter_cons_of_pos (by rw [decide_eq_true_eq]; exact List.cons_ne_nil _ _),
    List.filter_nil]

/-- C6: `clusterOrdersByDistance` seeds its centroids from ambient
`Math.random()` draws (modelled by the explicit stream `rnd`); there is no
injectable seed parameter in the source, and the output genuinely depends on
the ambient draws: the same `(orders, k)` input produces different
clusterings under two different draw sequences, refuting determinism of
`cluster(orders, k)` over its declared inputs. -/
theorem c6_ambient_randomness :
    clusterOrdersByDistance c6orders 2 (fun _ => 0) ≠
      clusterOrdersByDistance c6orders 2 (fun i => i + 1) := by
  rw [c6_run1, c6_run2]
  intro h
  have := congrArg List.length h
  simp at this

/-- The multiset of order ids stored across all drones' `assignedOrders`. -/
def storedIds : List Drone → Multiset ℕ
  | [] => 0
  | d :: t => ((d.assignedOrders.map (·.id) : List ℕ) : Multiset ℕ) + storedIds t

/-- The multiset of ids of a list of orders. -/
def idsOf : List Order → Multiset ℕ
  | [] => 0
  | o :: t => {o.id} + idsOf t

/-- The multiset of ids of the orders with status `'pending'`. -/
def pendingIds : List Order → Multiset ℕ
  | [] => 0
  | o :: t => (if o.status = OrderStatus.pending then {o.id} else 0) + pendingIds t

/-- The multiset of ids of the orders with status `'assigned'`. -/
def assignedIds : List Order → Multiset ℕ
  | [] => 0
  | o :: t => (if o.status = OrderStatus.assigned then {o.id} else 0) + assignedIds t

theorem idsOf_append (l₁ l₂ : List Order) : idsOf (l₁ ++ l₂) = idsOf l₁ + idsOf l₂ := by
  induction l₁ with
  | nil => simp [idsOf]
  | cons o t ih => rw [List.cons_append, idsOf, idsOf, ih, add_assoc]

theorem assignedIds_append (l₁ l₂ : List Order) :
    assignedIds (l₁ ++ l₂) = assignedIds l₁ + assignedIds l₂ := by
  induction l₁ with
  | nil => simp [assignedIds]
  | cons o t ih => rw [List.cons_append, assignedIds, assignedIds, ih, add_assoc]

theorem pendingIds_le_idsOf (l : List Order) : pendingIds l ≤ idsOf l := by
  induction l with
  | nil => exact le_refl _
  | cons o t ih =>
      rw [pendingIds, idsOf]
      apply add_le_add _ ih
      split
      · exact le_refl _
      · exact Multiset.zero_le _

theorem assignedIds_le_idsOf (l : List Order) : assignedIds l ≤ idsOf l := by
  induction l with
  | nil => exact le_refl _
  | cons o t ih =>
      rw [assignedIds, idsOf]
      apply add_le_add _ ih
      split
      · exact le_refl _
      · exact Multiset.zero_le _

theorem idsOf_coe (l : List Order) : idsOf l = ((l.map (·.id) : List ℕ) : Multiset ℕ) := by
  induction l with
  | nil => rfl
  | cons o t ih =>
      rw [idsOf, ih, List.map_cons, ← Multiset.cons_coe, ← Multiset.singleton_add]

theorem idsOf_count_le_one (l : List Order) (h : (l.map (·.id)).Nodup) (i : ℕ) :
    (idsOf l).count i ≤ 1 := by
  rw [idsOf_coe]
  have : Multiset.Nodup ((l.map (·.id) : List ℕ) : Multiset ℕ) := by
    rw [Multiset.coe_nodup]
    exact h
  exact Multiset.nodup_iff_count_le_one.1 this i

theorem idsOf_perm (l₁ l₂ : List Order) (h : l₁.Perm l₂) : idsOf l₁ = idsOf l₂ := by
  rw [idsOf_coe, idsOf_coe]
  exact Multiset.coe_eq_coe.2 (h.map _)

theorem pendingIds_eq_filter (l : List Order) :
    pendingIds l = idsOf (l.filter fun o => decide (o.status = OrderStatus.pending)) := by
  induction l with
  | nil => rfl
  | cons o t ih =>
      rw [pendingIds, ih]
      by_cases h : o.status = OrderStatus.pending
      · rw [if_pos h, List.filter_cons_of_pos (by simp [h]), idsOf]
      · rw [if_neg h, List.filter_cons_of_neg (by simp [h]), zero_add]

theorem storedIds_eq_zero (l : List Drone) (h : ∀ d ∈ l, d.assignedOrders = []) :
    storedIds l = 0 := by
  induction l with
  | nil => rfl
  | cons d t ih =>
      rw [storedIds, h d (List.mem_cons_self d t), ih fun x hx =>
        h x (List.mem_cons_of_mem d hx)]
      rfl

theorem storedIds_set_append (l : List Drone) (o' : Order) :
    ∀ (j : ℕ), j < l.length → ∀ (d' : Drone),
      d'.assignedOrders = (l.getD j dummyDrone).assignedOrders ++ [o'] →
      storedIds (l.set j d') = storedIds l + {o'.id} := by
  induction l with
  | nil => intro j hj; cases hj
  | cons d t ih =>
      intro j hj d' hd'
      cases j with
      | zero =>
          rw [List.getD_cons_zero] at hd'
          rw [List.set_cons_zero, storedIds, storedIds, hd']
          rw [List.map_append, List.map_cons, List.map_nil]
          rw [show ((d.assignedOrders.map (·.id) ++ [o'.id] : List ℕ) : Multiset ℕ) =
            ((d.assignedOrders.map (·.id) : List ℕ) : Multiset ℕ) + {o'.id} by
            rw [← Multiset.coe_singleton, ← Multiset.coe_add]]
          abel
      | succ j =>
          rw [List.getD_cons_succ] at hd'
          rw [List.set_cons_succ, storedIds, storedIds,
            ih j (by simpa using hj) d' hd']
          abel

theorem updateOrders_id_absent (l : List Order) (o' : Order)
    (h : (idsOf l).count o'.id = 0) : updateOrders l o' = l := by
  induction l with
  | nil => rfl
  | cons p t ih =>
      rw [idsOf] at h
      rw [Multiset.count_add, Multiset.count_singleton] at h
      have hne : ¬p.id = o'.id := by
        intro he
        rw [if_pos he.symm] at h
        omega
      rw [updateOrders, List.map_cons, if_neg hne]
      have := ih (by omega)
      rw [updateOrders] at this
      rw [this]

/-- Flipping the unique pending entry with id `o'.id` to the assigned order
`o'` moves that id from the pending ids to the assigned ids, keeping the id
multiset unchanged. -/
theorem updateOrders_flip (l : List Order) (o' : Order)
    (ho' : o'.status = OrderStatus.assigned) :
    ∀ (_ : (idsOf l).count o'.id ≤ 1) (_ : 1 ≤ (pendingIds l).count o'.id),
      assignedIds (updateOrders l o') = assignedIds l + {o'.id} ∧
        pendingIds (updateOrders l o') = pendingIds l - {o'.id} ∧
        idsOf (updateOrders l o') = idsOf l := by
  induction l with
  | nil => intro h1 h2; rw [pendingIds, Multiset.count_zero] at h2; omega
  | cons p t ih =>
      intro h1 h2
      rw [idsOf, Multiset.count_add, Multiset.count_singleton] at h1
      rw [pendingIds, Multiset.count_add] at h2
      by_cases hpe : p.id = o'.id
      · -- the head is the unique entry with this id
        have htz : (idsOf t).count o'.id = 0 := by
          rw [if_pos hpe.symm] at h1
          omega
        have hpp : p.status = OrderStatus.pending := by
          by_contra hps
          rw [if_neg hps, Multiset.count_zero, zero_add] at h2
          have := le_trans h2 (Multiset.count_le_of_le o'.id (pendingIds_le_idsOf t))
          omega
        rw [updateOrders, List.map_cons, if_pos hpe]
        have hrest : List.map (fun q => if q.id = o'.id then o' else q) t = t := by
          have := updateOrders_id_absent t o' htz
          rw [updateOrders] at this
          exact this
        rw [hrest]
        refine ⟨?_, ?_, ?_⟩
        · rw [assignedIds, assignedIds, if_pos ho',
            if_neg (show ¬p.status = OrderStatus.assigned by rw [hpp]; intro hc; cases hc)]
          abel
        · rw [pendingIds, pendingIds, if_pos hpp,
            if_neg (show ¬o'.status = OrderStatus.pending by rw [ho']; intro hc; cases hc),
            zero_add, hpe, Multiset.singleton_add, Multiset.sub_singleton,
            Multiset.erase_cons_head]
        · rw [idsOf, idsOf, hpe]
      · -- head unaffected, recurse
        have h2t : 1 ≤ (pendingIds t).count o'.id := by
          have hz : Multiset.count o'.id (if p.status = OrderStatus.pending
              then ({p.id} : Multiset ℕ) else 0) = 0 := by
            split
            · rw [Multiset.count_singleton, if_neg (fun he => hpe he.symm)]
            · rw [Multiset.count_zero]
          omega
        have h1t : (idsOf t).count o'.id ≤ 1 := by
          rw [if_neg (fun he => hpe he.symm)] at h1
          omega
        obtain ⟨ha, hp, hi⟩ := ih h1t h2t
        rw [updateOrders] at ha hp hi
        rw [updateOrders, List.map_cons, if_neg hpe]
        refine ⟨?_, ?_, ?_⟩
        · rw [assignedIds, assignedIds, ha]
          abel
        · rw [pendingIds, pendingIds, hp]
          have hle : ({o'.id} : Multiset ℕ) ≤ pendingIds t := by
            rw [Multiset.singleton_le, ← Multiset.count_pos]
            omega
          rw [add_tsub_assoc_of_le hle]
        · rw [idsOf, idsOf, hi]

theorem eraseById_idsOf (l : List Order) (i : ℕ) :
    1 ≤ (idsOf l).count i → idsOf (eraseById l i) = idsOf l - {i} := by
  induction l with
  | nil => intro h; rw [idsOf, Multiset.count_zero] at h; omega
  | cons o t ih =>
      intro h
      by_cases ho : o.id = i
      · rw [eraseById, if_pos ho, idsOf, ho, Multiset.singleton_add,
          Multiset.sub_singleton, Multiset.erase_cons_head]
      · rw [idsOf, Multiset.count_add, Multiset.count_singleton,
          if_neg (fun he => ho he.symm)] at h
        have hle : ({i} : Multiset ℕ) ≤ idsOf t := by
          rw [Multiset.singleton_le, ← Multiset.count_pos]
          omega
        rw [eraseById, if_neg ho, idsOf, idsOf, ih (by omega),
          add_tsub_assoc_of_le hle]

theorem greedyScanAux_some_lt (o : Order) :
    ∀ (ds : List Drone) (j : ℕ) (acc : Option ℕ × ℝ),
      (∀ i, acc.1 = some i → i < j) →
      ∀ i, (greedyScanAux o ds j acc).1 = some i → i < j + ds.length := by
  intro ds
  induction ds with
  | nil => intro j acc hacc i hi; simpa using hacc i hi
  | cons d rest ih =>
      intro j acc hacc i hi
      rw [greedyScanAux] at hi
      have hstep : ∀ i',
          (if d.status = DroneStatus.idle ∧ canCarryOrder d o then
            (if calculateAssignmentScore o d > acc.2 then (some j, calculateAssignmentScore o d)
             else acc)
           else acc).1 = some i' → i' < j + 1 := by
        intro i' hi'
        split at hi'
        · split at hi'
          · simp at hi'
            omega
          · exact Nat.lt_succ_of_lt (hacc i' hi')
        · exact Nat.lt_succ_of_lt (hacc i' hi')
      have := ih (j + 1) _ hstep i hi
      simp only [List.length_cons]
      omega

theorem greedyBestScan_some_lt (o : Order) (ds : List Drone) (j : ℕ)
    (h : greedyBestScan o ds = some j) : j < ds.length := by
  rw [greedyBestScan] at h
  have := greedyScanAux_some_lt o ds 0 (none, -1)
    (fun i hi => by cases hi) j h
  omega

theorem storedIds_set2 (l : List Drone) (i : ℕ) (hi : i < l.length) (d₁ d₂ : Drone)
    (o' : Order) (h : d₂.assignedOrders = d₁.assignedOrders ++ [o']) :
    storedIds (l.set i d₂) = storedIds (l.set i d₁) + {o'.id} := by
  rw [← List.set_set d₁ d₂ l i]
  apply storedIds_set_append (l.set i d₁) o' i (by rw [List.length_set]; exact hi) d₂
  rw [List.getD_eq_getElem _ _ (by rw [List.length_set]; exact hi)]
  rw [List.getElem_set_self]
  exact h

theorem set_getD_self (l : List Drone) : ∀ (i : ℕ), i < l.length →
    l.set i (l.getD i dummyDrone) = l := by
  induction l with
  | nil => intro i hi; cases hi
  | cons d t ih =>
      intro i hi
      cases i with
      | zero => rw [List.getD_cons_zero, List.set_cons_zero]
      | succ i => rw [List.getD_cons_succ, List.set_cons_succ, ih i (by simpa using hi)]

theorem assignOrder_pos (d : Drone) (o : Order) (hcc : canCarryOrder d o) :
    assignOrder d o =
      (true,
        { d with
          assignedOrders := d.assignedOrders ++
            [{ o with status := OrderStatus.assigned, assignedDrone := some d.id }],
          currentLoad := d.currentLoad + o.weight },
        { o with status := OrderStatus.assigned, assignedDrone := some d.id }) := by
  rw [assignOrder, if_pos hcc]

theorem assignOrder_neg (d : Drone) (o : Order) (hcc : ¬canCarryOrder d o) :
    assignOrder d o = (false, d, o) := by
  rw [assignOrder, if_neg hcc]

theorem greedyStep_master (st : GreedyState) (o : Order)
    (hpend : o.status = OrderStatus.pending)
    (hInv : storedIds st.drones = assignedIds st.processed) :
    storedIds (greedyStep st o).drones = assignedIds (greedyStep st o).processed ∧
      idsOf (greedyStep st o).processed = idsOf st.processed + {o.id} := by
  have hno : ¬o.status ≠ OrderStatus.pending := not_not_intro hpend
  rw [greedyStep, if_neg hno]
  cases hscan : greedyBestScan o st.drones with
  | none =>
      refine ⟨?_, ?_⟩
      · rw [assignedIds_append, assignedIds, assignedIds,
          if_neg (by rw [hpend]; intro hc; cases hc)]
        simpa using hInv
      · rw [idsOf_append, idsOf, idsOf]
        simp
  | some j =>
      have hj : j < st.drones.length := greedyBestScan_some_lt o st.drones j hscan
      by_cases hcc : canCarryOrder (st.drones.getD j dummyDrone) o
      · have hassign := assignOrder_pos (st.drones.getD j dummyDrone) o hcc
        simp only [hassign, if_true]
        refine ⟨?_, ?_⟩
        · rw [storedIds_set_append st.drones _ j hj _ rfl]
          rw [assignedIds_append, assignedIds, assignedIds, if_pos rfl]
          rw [hInv]
          simp
        · rw [idsOf_append, idsOf, idsOf]
          simp
      · have hassign := assignOrder_neg (st.drones.getD j dummyDrone) o hcc
        simp only [hassign, Bool.false_eq_true, if_false]
        refine ⟨?_, ?_⟩
        · rw [assignedIds_append, assignedIds, assignedIds,
            if_neg (by rw [hpend]; intro hc; cases hc)]
          simpa using hInv
        · rw [idsOf_append, idsOf, idsOf]
          simp

theorem greedyFold_master :
    ∀ (T : List Order) (st : GreedyState),
      (∀ o ∈ T, o.status = OrderStatus.pending) →
      storedIds st.drones = assignedIds st.processed →
      storedIds (T.foldl greedyStep st).drones =
          assignedIds (T.foldl greedyStep st).processed ∧
        idsOf (T.foldl greedyStep st).processed = idsOf st.processed + idsOf T := by
  intro T
  induction T with
  | nil => intro st hp hInv; exact ⟨hInv, by rw [idsOf]; simp⟩
  | cons o t ih =>
      intro st hp hInv
      have hstep := greedyStep_master st o (hp o (List.mem_cons_self o t)) hInv
      have hrec := ih (greedyStep st o) (fun p hp' => hp p (List.mem_cons_of_mem o hp'))
        hstep.1
      rw [List.foldl_cons]
      refine ⟨hrec.1, ?_⟩
      rw [hrec.2, hstep.2, idsOf]
      abel

theorem greedyAssignment_master (orders : List Order) (drones : List Drone)
    (hpend : ∀ o ∈ orders, o.status = OrderStatus.pending)
    (hempty : ∀ d ∈ drones, d.assignedOrders = []) :
    storedIds (greedyAssignment orders drones).drones =
        assignedIds (greedyAssignment orders drones).orders ∧
      idsOf (greedyAssignment orders drones).orders = idsOf orders := by
  have h0 : storedIds (⟨drones, [], 0, []⟩ : GreedyState).drones =
      assignedIds (⟨drones, [], 0, []⟩ : GreedyState).processed := by
    show storedIds drones = assignedIds []
    rw [storedIds_eq_zero drones hempty, assignedIds]
  have := greedyFold_master orders ⟨drones, [], 0, []⟩ hpend h0
  refine ⟨this.1, ?_⟩
  have h2 := this.2
  show idsOf (orders.foldl greedyStep ⟨drones, [], 0, []⟩).processed = idsOf orders
  rw [h2]
  show idsOf [] + idsOf orders = idsOf orders
  rw [idsOf, zero_add]

theorem idsOf_filter_le (l : List Order) (p : Order → Bool) :
    idsOf (l.filter p) ≤ idsOf l := by
  induction l with
  | nil => exact le_refl _
  | cons o t ih =>
      by_cases h : p o = true
      · rw [List.filter_cons_of_pos h, idsOf, idsOf]
        exact add_le_add (le_refl _) ih
      · rw [List.filter_cons_of_neg (by simpa using h), idsOf]
        exact le_trans ih le_add_self

theorem pack_ids_le :
    ∀ (l : List Order) (acc : List Order × ℝ),
      idsOf ((l.foldl
        (fun (acc : List Order × ℝ) o =>
          if o.weight ≤ acc.2 then (acc.1 ++ [o], acc.2 - o.weight) else acc)
        acc).1) ≤ idsOf acc.1 + idsOf l := by
  intro l
  induction l with
  | nil => intro acc; rw [idsOf]; simp
  | cons o t ih =>
      intro acc
      rw [List.foldl_cons]
      by_cases hw : o.weight ≤ acc.2
      · rw [if_pos hw]
        refine le_trans (ih _) (le_of_eq ?_)
        rw [idsOf_append, idsOf, idsOf, idsOf]
        abel
      · rw [if_neg hw]
        refine le_trans (ih _) ?_
        rw [idsOf]
        exact add_le_add (le_refl _) le_add_self

theorem pack_ids_le' (l : List Order) (cap : ℝ) :
    idsOf ((l.foldl
      (fun (acc : List Order × ℝ) o =>
        if o.weight ≤ acc.2 then (acc.1 ++ [o], acc.2 - o.weight) else acc)
      (([] : List Order), cap)).1) ≤ idsOf l := by
  have := pack_ids_le l ([], cap)
  rw [show idsOf (([] : List Order), cap).1 = 0 from rfl, zero_add] at this
  exact this

theorem findBest_ids_le (pending : List Order) (d : Drone) (now : ℝ) :
    idsOf (findBestOrderCombination pending d now) ≤ idsOf pending := by
  rw [findBestOrderCombination]
  by_cases hv : pending.filter (fun o => decide (canCarryOrder d o)) = []
  · rw [if_pos hv]
    exact Multiset.zero_le _
  · rw [if_neg hv]
    exact le_trans (le_trans (pack_ids_le' _ _)
      (le_of_eq (idsOf_perm _ _ (sortLe_perm _ _))))
      (idsOf_filter_le pending _)

theorem ids_nodup_of_le (l : List Order) (s : Multiset ℕ) (h : idsOf l ≤ s)
    (hs : ∀ i, s.count i ≤ 1) : (l.map (·.id)).Nodup := by
  have hn : (idsOf l).Nodup := Multiset.nodup_iff_count_le_one.2 fun i =>
    le_trans (Multiset.count_le_of_le i h) (hs i)
  rw [idsOf_coe] at hn
  exact Multiset.coe_nodup.1 hn

theorem count_idsOf_head (o : Order) (rest : List Order) :
    1 ≤ (idsOf (o :: rest)).count o.id := by
  rw [idsOf, Multiset.count_add, Multiset.count_singleton, if_pos rfl]
  omega

theorem count_rest_zero (o : Order) (rest : List Order)
    (h : ((o :: rest).map (·.id)).Nodup) : (idsOf rest).count o.id = 0 := by
  rw [List.map_cons, List.nodup_cons] at h
  rw [idsOf_coe, Multiset.coe_count]
  exact List.count_eq_zero.2 h.1

theorem rest_le_sub (o : Order) (rest : List Order) (big : Multiset ℕ)
    (h : idsOf (o :: rest) ≤ big) (hnodup : ((o :: rest).map (·.id)).Nodup) :
    idsOf rest ≤ big - {o.id} := by
  rw [Multiset.le_iff_count]
  intro i
  rw [Multiset.count_sub, Multiset.count_singleton]
  by_cases hio : i = o.id
  · subst hio
    rw [if_pos rfl, count_rest_zero o rest hnodup]
    omega
  · rw [if_neg hio]
    have := Multiset.count_le_of_le i h
    rw [idsOf, Multiset.count_add, Multiset.count_singleton, if_neg hio] at this
    omega

theorem capInner_master (dr : List Drone) (i : ℕ) (hi : i < dr.length) :
    ∀ (comb : List Order) (acc : Drone × List Order × List Order),
      storedIds (dr.set i acc.1) = assignedIds acc.2.2 →
      idsOf acc.2.1 ≤ pendingIds acc.2.2 →
      idsOf comb ≤ idsOf acc.2.1 →
      (comb.map (·.id)).Nodup →
      (∀ n, (idsOf acc.2.2).count n ≤ 1) →
      storedIds (dr.set i
            ((comb.foldl
              (fun (acc : Drone × List Order × List Order) o =>
                let r := assignOrder acc.1 o
                if r.1 then (r.2.1, eraseById acc.2.1 o.id, updateOrders acc.2.2 r.2.2)
                else acc)
              acc).1)) =
          assignedIds ((comb.foldl
            (fun (acc : Drone × List Order × List Order) o =>
              let r := assignOrder acc.1 o
              if r.1 then (r.2.1, eraseById acc.2.1 o.id, updateOrders acc.2.2 r.2.2)
              else acc)
            acc).2.2) ∧
        idsOf ((comb.foldl
            (fun (acc : Drone × List Order × List Order) o =>
              let r := assignOrder acc.1 o
              if r.1 then (r.2.1, eraseById acc.2.1 o.id, updateOrders acc.2.2 r.2.2)
              else acc)
            acc).2.1) ≤
          pendingIds ((comb.foldl
            (fun (acc : Drone × List Order × List Order) o =>
              let r := assignOrder acc.1 o
              if r.1 then (r.2.1, eraseById acc.2.1 o.id, updateOrders acc.2.2 r.2.2)
              else acc)
            acc).2.2) ∧
        idsOf ((comb.foldl
            (fun (acc : Drone × List Order × List Order) o =>
              let r := assignOrder acc.1 o
              if r.1 then (r.2.1, eraseById acc.2.1 o.id, updateOrders acc.2.2 r.2.2)
              else acc)
            acc).2.2) = idsOf acc.2.2 := by
  intro comb
  induction comb with
  | nil => intro acc h1 h2 _ _ _; exact ⟨h1, h2, rfl⟩
  | cons o rest ih =>
      intro acc h1 h2 hcomb hnodup hcnt
      rw [List.foldl_cons]
      by_cases hcc : canCarryOrder acc.1 o
      · have hassign := assignOrder_pos acc.1 o hcc
        simp only [hassign, if_true]
        have hheado : 1 ≤ (idsOf acc.2.1).count o.id :=
          le_trans (count_idsOf_head o rest) (Multiset.count_le_of_le o.id hcomb)
        have hpendcnt : 1 ≤ (pendingIds acc.2.2).count o.id :=
          le_trans hheado (Multiset.count_le_of_le o.id h2)
        have hflip := updateOrders_flip acc.2.2
          { o with status := OrderStatus.assigned, assignedDrone := some acc.1.id }
          rfl (hcnt o.id) hpendcnt
        have herase := eraseById_idsOf acc.2.1 o.id hheado
        have hA : storedIds (dr.set i
            { acc.1 with
              assignedOrders := acc.1.assignedOrders ++
                [{ o with status := OrderStatus.assigned, assignedDrone := some acc.1.id }],
              currentLoad := acc.1.currentLoad + o.weight }) =
            assignedIds (updateOrders acc.2.2
              { o with status := OrderStatus.assigned, assignedDrone := some acc.1.id }) := by
          rw [storedIds_set2 dr i hi acc.1 _ _ rfl, h1, hflip.1]
        have hB : idsOf (eraseById acc.2.1 o.id) ≤
            pendingIds (updateOrders acc.2.2
              { o with status := OrderStatus.assigned, assignedDrone := some acc.1.id }) := by
          rw [herase, hflip.2.1]
          exact tsub_le_tsub_right h2 _
        have hrest : idsOf rest ≤ idsOf (eraseById acc.2.1 o.id) := by
          rw [herase]
          exact rest_le_sub o rest (idsOf acc.2.1) hcomb
            (ids_nodup_of_le (o :: rest) (idsOf acc.2.1) hcomb fun n =>
              le_trans (Multiset.count_le_of_le n h2)
                (le_trans (Multiset.count_le_of_le n (pendingIds_le_idsOf _)) (hcnt n)))
        have hrec := ih
          ({ acc.1 with
              assignedOrders := acc.1.assignedOrders ++
                [{ o with status := OrderStatus.assigned, assignedDrone := some acc.1.id }],
              currentLoad := acc.1.currentLoad + o.weight },
            eraseById acc.2.1 o.id,
            updateOrders acc.2.2
              { o with status := OrderStatus.assigned, assignedDrone := some acc.1.id })
          hA hB hrest (by
          rw [List.map_cons, List.nodup_cons] at hnodup
          exact hnodup.2) (by
          intro n
          have hc := hcnt n
          rw [← hflip.2.2] at hc
          exact hc)
        refine ⟨hrec.1, hrec.2.1, ?_⟩
        rw [hrec.2.2]
        exact hflip.2.2
      · have hassign := assignOrder_neg acc.1 o hcc
        simp only [hassign, Bool.false_eq_true, if_false]
        have hrest : idsOf rest ≤ idsOf acc.2.1 := by
          refine le_trans ?_ hcomb
          rw [idsOf]
          exact le_add_self
        exact ih acc h1 h2 hrest (by
          rw [List.map_cons, List.nodup_cons] at hnodup
          exact hnodup.2) hcnt

theorem assignedIds_of_pending (l : List Order)
    (h : ∀ o ∈ l, o.status = OrderStatus.pending) : assignedIds l = 0 := by
  induction l with
  | nil => rfl
  | cons o t ih =>
      rw [assignedIds, if_neg (by
        rw [h o (List.mem_cons_self o t)]
        intro hc
        cases hc)]
      rw [ih fun p hp => h p (List.mem_cons_of_mem o hp), zero_add]

theorem capacityProcessDrone_master (now : ℝ) (st : CapState) (i : ℕ)
    (hi : i < st.drones.length)
    (h1 : storedIds st.drones = assignedIds st.orders)
    (h2 : idsOf st.pending ≤ pendingIds st.orders)
    (hcnt : ∀ n, (idsOf st.orders).count n ≤ 1) :
    storedIds (capacityProcessDrone now st i).drones =
        assignedIds (capacityProcessDrone now st i).orders ∧
      idsOf (capacityProcessDrone now st i).pending ≤
        pendingIds (capacityProcessDrone now st i).orders ∧
      idsOf (capacityProcessDrone now st i).orders = idsOf st.orders ∧
      (capacityProcessDrone now st i).drones.length = st.drones.length := by
  rw [capacityProcessDrone]
  by_cases hidle : (st.drones.getD i dummyDrone).status = DroneStatus.idle
  · rw [if_pos hidle]
    by_cases hcomb : findBestOrderCombination st.pending (st.drones.getD i dummyDrone) now = []
    · rw [if_pos hcomb]
      exact ⟨h1, h2, rfl, rfl⟩
    · rw [if_neg hcomb]
      have hinit1 : storedIds (st.drones.set i (st.drones.getD i dummyDrone)) =
          assignedIds st.orders := by
        rw [set_getD_self st.drones i hi]
        exact h1
      have hcomble : idsOf (findBestOrderCombination st.pending
          (st.drones.getD i dummyDrone) now) ≤ idsOf st.pending :=
        findBest_ids_le st.pending _ now
      have hnodupc : ((findBestOrderCombination st.pending
          (st.drones.getD i dummyDrone) now).map (·.id)).Nodup :=
        ids_nodup_of_le _ (idsOf st.orders)
          (le_trans hcomble (le_trans h2 (pendingIds_le_idsOf _))) hcnt
      have hres := capInner_master st.drones i hi
        (findBestOrderCombination st.pending (st.drones.getD i dummyDrone) now)
        (st.drones.getD i dummyDrone, st.pending, st.orders)
        hinit1 h2 hcomble hnodupc hcnt
      exact ⟨hres.1, hres.2.1, hres.2.2, by rw [List.length_set]⟩
  · rw [if_neg hidle]
    exact ⟨h1, h2, rfl, rfl⟩

theorem capFold_master (now : ℝ) :
    ∀ (idxs : List ℕ) (st : CapState),
      (∀ i ∈ idxs, i < st.drones.length) →
      storedIds st.drones = assignedIds st.orders →
      idsOf st.pending ≤ pendingIds st.orders →
      (∀ n, (idsOf st.orders).count n ≤ 1) →
      storedIds (idxs.foldl (capacityProcessDrone now) st).drones =
          assignedIds (idxs.foldl (capacityProcessDrone now) st).orders ∧
        idsOf (idxs.foldl (capacityProcessDrone now) st).orders = idsOf st.orders := by
  intro idxs
  induction idxs with
  | nil => intro st _ h1 _ _; exact ⟨h1, rfl⟩
  | cons i t ih =>
      intro st hb h1 h2 hcnt
      have hstep := capacityProcessDrone_master now st i (hb i (List.mem_cons_self i t))
        h1 h2 hcnt
      rw [List.foldl_cons]
      have hrec := ih (capacityProcessDrone now st i)
        (fun j hj => by rw [hstep.2.2.2]; exact hb j (List.mem_cons_of_mem i hj))
        hstep.1 hstep.2.1
        (fun n => by rw [hstep.2.2.1]; exact hcnt n)
      exact ⟨hrec.1, by rw [hrec.2, hstep.2.2.1]⟩

theorem capacityOptimization_master (orders : List Order) (drones : List Drone)
    (now : ℝ) (hnodup : (orders.map (·.id)).Nodup)
    (hpend : ∀ o ∈ orders, o.status = OrderStatus.pending)
    (hempty : ∀ d ∈ drones, d.assignedOrders = []) :
    storedIds (capacityOptimization orders drones now).drones =
        assignedIds (capacityOptimization orders drones now).orders ∧
      idsOf (capacityOptimization orders drones now).orders = idsOf orders := by
  have h := capFold_master now (List.range drones.length)
    { drones := drones,
      pending := orders.filter fun o => decide (o.status = OrderStatus.pending),
      assignments := [], orders := orders }
    (fun i hi => List.mem_range.1 hi)
    (by
      show storedIds drones = assignedIds orders
      rw [storedIds_eq_zero drones hempty, assignedIds_of_pending orders hpend])
    (by
      show idsOf (orders.filter fun o => decide (o.status = OrderStatus.pending)) ≤
        pendingIds orders
      rw [pendingIds_eq_filter])
    (fun n => idsOf_count_le_one orders hnodup n)
  exact h

theorem clusterContents_singletons (orders : List Order) :
    clusterContents (orders.map fun o => [o]) = (orders : Multiset Order) := by
  induction orders with
  | nil => rfl
  | cons o t ih =>
      rw [List.map_cons, clusterContents, ih,
        show (([o] : List Order) : Multiset Order) = {o} from rfl,
        show ((o :: t : List Order) : Multiset Order) = {o} + (t : Multiset Order) by
          rw [← Multiset.cons_coe, ← Multiset.singleton_add]]

theorem clusterContents_replicate (k : ℕ) :
    clusterContents (List.replicate k ([] : List Order)) = 0 := by
  induction k with
  | zero => rfl
  | succ k ih =>
      rw [List.replicate_succ, clusterContents, ih]
      rfl

/-- The cluster partition of `clusterOrdersByDistance` contains every input
order exactly once (for a positive vehicle count `k`). -/
theorem clusterOrders_contents (orders : List Order) (k : ℕ) (rnd : ℕ → ℕ)
    (hk : 0 < k) :
    clusterContents (clusterOrdersByDistance orders k rnd) = (orders : Multiset Order) := by
  rw [clusterOrdersByDistance]
  by_cases hle : orders.length ≤ k
  · rw [if_pos hle]
    exact clusterContents_singletons orders
  · rw [if_neg hle]
    simp only []
    have hclen :
        (kmeansIterate orders k 3 ((List.range k).map fun i =>
          (orders.getD (rnd i % orders.length) dummyOrder).location)).length = k := by
      rw [kmeansIterate_length]
      simp
    have hcne :
        (kmeansIterate orders k 3 ((List.range k).map fun i =>
          (orders.getD (rnd i % orders.length) dummyOrder).location)) ≠ [] := by
      intro h
      rw [h] at hclen
      simp at hclen
      omega
    have hspec := assignFold_spec _ hcne orders (List.replicate k ([] : List Order))
      (by rw [hclen, List.length_replicate])
    rw [assignToClusters]
    rw [clusterContents_filter]
    rw [hspec.2, clusterContents_replicate, zero_add]

/-- Sum of the ids of the clusters selected by an index list. -/
def clustersIds (cs : List (List Order)) : List ℕ → Multiset ℕ
  | [] => 0
  | i :: t => idsOf (cs.getD i []) + clustersIds cs t

/-- Sum of the ids over all clusters. -/
def clustersIdsAll : List (List Order) → Multiset ℕ
  | [] => 0
  | c :: t => idsOf c + clustersIdsAll t

theorem clustersIdsAll_eq (cs : List (List Order)) :
    clustersIdsAll cs = (clusterContents cs).map (·.id) := by
  induction cs with
  | nil => rfl
  | cons c t ih =>
      rw [clustersIdsAll, clusterContents, Multiset.map_add, ih, idsOf_coe,
        Multiset.map_coe]

theorem clustersIdsAll_drop (cs : List (List Order)) (a : ℕ) (ha : a < cs.length) :
    clustersIdsAll (cs.drop a) = idsOf (cs.getD a []) + clustersIdsAll (cs.drop (a + 1)) := by
  rw [List.drop_eq_getElem_cons ha, clustersIdsAll,
    List.getD_eq_getElem cs [] ha]

theorem clustersIds_range' (cs : List (List Order)) :
    ∀ (b a : ℕ), a + b ≤ cs.length →
      clustersIds cs (List.range' a b) ≤ clustersIdsAll (cs.drop a) := by
  intro b
  induction b with
  | zero => intro a ha; exact Multiset.zero_le _
  | succ b ih =>
      intro a ha
      rw [List.range'_succ, clustersIds]
      rw [clustersIdsAll_drop cs a (by omega)]
      exact add_le_add (le_refl _) (ih (a + 1) (by omega))

theorem clustersIds_range (cs : List (List Order)) (m : ℕ) (hm : m ≤ cs.length) :
    clustersIds cs (List.range m) ≤ clustersIdsAll cs := by
  rw [List.range_eq_range']
  have := clustersIds_range' cs m 0 (by omega)
  simpa using this

theorem pendingIds_of_pending (l : List Order)
    (h : ∀ o ∈ l, o.status = OrderStatus.pending) : pendingIds l = idsOf l := by
  induction l with
  | nil => rfl
  | cons o t ih =>
      rw [pendingIds, idsOf, if_pos (h o (List.mem_cons_self o t)),
        ih fun p hp => h p (List.mem_cons_of_mem o hp)]

theorem distInner_master (dr : List Drone) (i : ℕ) (hi : i < dr.length) :
    ∀ (cl : List Order) (acc : Drone × List Order × List Order),
      storedIds (dr.set i acc.1) = assignedIds acc.2.2 →
      idsOf cl ≤ pendingIds acc.2.2 →
      (cl.map (·.id)).Nodup →
      (∀ n, (idsOf acc.2.2).count n ≤ 1) →
      storedIds (dr.set i
            ((cl.foldl
              (fun (acc : Drone × List Order × List Order) o =>
                if canCarryOrder acc.1 o then
                  let r := assignOrder acc.1 o
                  if r.1 then (r.2.1, acc.2.1 ++ [r.2.2], updateOrders acc.2.2 r.2.2)
                  else acc
                else acc)
              acc).1)) =
          assignedIds ((cl.foldl
            (fun (acc : Drone × List Order × List Order) o =>
              if canCarryOrder acc.1 o then
                let r := assignOrder acc.1 o
                if r.1 then (r.2.1, acc.2.1 ++ [r.2.2], updateOrders acc.2.2 r.2.2)
                else acc
              else acc)
            acc).2.2) ∧
        idsOf ((cl.foldl
            (fun (acc : Drone × List Order × List Order) o =>
              if canCarryOrder acc.1 o then
                let r := assignOrder acc.1 o
                if r.1 then (r.2.1, acc.2.1 ++ [r.2.2], updateOrders acc.2.2 r.2.2)
                else acc
              else acc)
            acc).2.2) = idsOf acc.2.2 ∧
        pendingIds acc.2.2 ≤
          pendingIds ((cl.foldl
            (fun (acc : Drone × List Order × List Order) o =>
              if canCarryOrder acc.1 o then
                let r := assignOrder acc.1 o
                if r.1 then (r.2.1, acc.2.1 ++ [r.2.2], updateOrders acc.2.2 r.2.2)
                else acc
              else acc)
            acc).2.2) + idsOf cl := by
  intro cl
  induction cl with
  | nil =>
      intro acc h1 _ _ _
      refine ⟨h1, rfl, le_self_add⟩
  | cons o rest ih =>
      intro acc h1 hcl hnodup hcnt
      rw [List.foldl_cons]
      by_cases hcc : canCarryOrder acc.1 o
      · rw [if_pos hcc]
        have hassign := assignOrder_pos acc.1 o hcc
        simp only [hassign, if_true]
        have hpendcnt : 1 ≤ (pendingIds acc.2.2).count o.id :=
          le_trans (count_idsOf_head o rest) (Multiset.count_le_of_le o.id hcl)
        have hflip := updateOrders_flip acc.2.2
          { o with status := OrderStatus.assigned, assignedDrone := some acc.1.id }
          rfl (hcnt o.id) hpendcnt
        have hA : storedIds (dr.set i
            { acc.1 with
              assignedOrders := acc.1.assignedOrders ++
                [{ o with status := OrderStatus.assigned, assignedDrone := some acc.1.id }],
              currentLoad := acc.1.currentLoad + o.weight }) =
            assignedIds (updateOrders acc.2.2
              { o with status := OrderStatus.assigned, assignedDrone := some acc.1.id }) := by
          rw [storedIds_set2 dr i hi acc.1 _ _ rfl, h1, hflip.1]
        have hrestle : idsOf rest ≤ pendingIds (updateOrders acc.2.2
            { o with status := OrderStatus.assigned, assignedDrone := some acc.1.id }) := by
          rw [hflip.2.1]
          exact rest_le_sub o rest (pendingIds acc.2.2) hcl hnodup
        have hrec := ih
          ({ acc.1 with
              assignedOrders := acc.1.assignedOrders ++
                [{ o with status := OrderStatus.assigned, assignedDrone := some acc.1.id }],
              currentLoad := acc.1.currentLoad + o.weight },
            acc.2.1 ++ [{ o with status := OrderStatus.assigned, assignedDrone := some acc.1.id }],
            updateOrders acc.2.2
              { o with status := OrderStatus.assigned, assignedDrone := some acc.1.id })
          hA hrestle (by
            rw [List.map_cons, List.nodup_cons] at hnodup
            exact hnodup.2) (by
            intro n
            have hc := hcnt n
            rw [← hflip.2.2] at hc
            exact hc)
        refine ⟨hrec.1, by rw [hrec.2.1]; exact hflip.2.2, ?_⟩
        have hstep2 := hrec.2.2
        have hup : pendingIds acc.2.2 ≤ pendingIds (updateOrders acc.2.2
            { o with status := OrderStatus.assigned, assignedDrone := some acc.1.id }) +
            {o.id} := by
          rw [hflip.2.1]
          exact le_tsub_add
        refine le_trans hup (le_trans (add_le_add hstep2
          (le_refl ({o.id} : Multiset ℕ))) (le_of_eq ?_))
        rw [idsOf]
        abel
      · rw [if_neg hcc]
        have hrestle : idsOf rest ≤ pendingIds acc.2.2 := by
          refine le_trans ?_ hcl
          rw [idsOf]
          exact le_add_self
        have hrec := ih acc h1 hrestle (by
          rw [List.map_cons, List.nodup_cons] at hnodup
          exact hnodup.2) hcnt
        refine ⟨hrec.1, hrec.2.1, ?_⟩
        refine le_trans hrec.2.2 (add_le_add (le_refl _) ?_)
        rw [idsOf]
        exact le_add_self

theorem distProcessCluster_master (clusters : List (List Order)) (st : DistState) (i : ℕ)
    (hi : i < st.drones.length)
    (h1 : storedIds st.drones = assignedIds st.orders)
    (h2 : idsOf (clusters.getD i []) ≤ pendingIds st.orders)
    (hcnt : ∀ n, (idsOf st.orders).count n ≤ 1) :
    storedIds (distProcessCluster clusters st i).drones =
        assignedIds (distProcessCluster clusters st i).orders ∧
      idsOf (distProcessCluster clusters st i).orders = idsOf st.orders ∧
      (distProcessCluster clusters st i).drones.length = st.drones.length ∧
      pendingIds st.orders ≤
        pendingIds (distProcessCluster clusters st i).orders +
          idsOf (clusters.getD i []) := by
  have hids : idsOf (sortLe
      (fun a b => priorityOrderVal b.priority ≤ priorityOrderVal a.priority)
      (clusters.getD i [])) = idsOf (clusters.getD i []) :=
    idsOf_perm _ _ (sortLe_perm _ _)
  have hinit : storedIds (st.drones.set i (st.drones.getD i dummyDrone)) =
      assignedIds st.orders := by
    rw [set_getD_self st.drones i hi]
    exact h1
  have hnodupc : ((sortLe
      (fun a b => priorityOrderVal b.priority ≤ priorityOrderVal a.priority)
      (clusters.getD i [])).map (·.id)).Nodup :=
    ids_nodup_of_le _ (idsOf st.orders)
      (by rw [hids]; exact le_trans h2 (pendingIds_le_idsOf _)) hcnt
  have hres := distInner_master st.drones i hi
    (sortLe (fun a b => priorityOrderVal b.priority ≤ priorityOrderVal a.priority)
      (clusters.getD i []))
    (st.drones.getD i dummyDrone, [], st.orders)
    hinit (by rw [hids]; exact h2) hnodupc hcnt
  simp only [distProcessCluster]
  split
  · exact ⟨hres.1, hres.2.1, by rw [List.length_set],
      le_trans hres.2.2 (le_of_eq (by rw [hids]))⟩
  · exact ⟨hres.1, hres.2.1, by rw [List.length_set],
      le_trans hres.2.2 (le_of_eq (by rw [hids]))⟩

theorem distFold_master (clusters : List (List Order)) :
    ∀ (idxs : List ℕ) (st : DistState),
      (∀ i ∈ idxs, i < st.drones.length) →
      storedIds st.drones = assignedIds st.orders →
      clustersIds clusters idxs ≤ pendingIds st.orders →
      (∀ n, (idsOf st.orders).count n ≤ 1) →
      storedIds (idxs.foldl (distProcessCluster clusters) st).drones =
          assignedIds (idxs.foldl (distProcessCluster clusters) st).orders ∧
        idsOf (idxs.foldl (distProcessCluster clusters) st).orders = idsOf st.orders := by
  intro idxs
  induction idxs with
  | nil => intro st _ h1 _ _; exact ⟨h1, rfl⟩
  | cons i t ih =>
      intro st hb h1 h2 hcnt
      rw [clustersIds] at h2
      have h2i : idsOf (clusters.getD i []) ≤ pendingIds st.orders :=
        le_trans le_self_add h2
      have hstep := distProcessCluster_master clusters st i
        (hb i (List.mem_cons_self i t)) h1 h2i hcnt
      have h2t : clustersIds clusters t ≤
          pendingIds (distProcessCluster clusters st i).orders := by
        have hh : clustersIds clusters t + idsOf (clusters.getD i []) ≤
            pendingIds (distProcessCluster clusters st i).orders +
              idsOf (clusters.getD i []) := by
          refine le_trans ?_ hstep.2.2.2
          rw [add_comm]
          exact h2
        exact le_of_add_le_add_right hh
      rw [List.foldl_cons]
      have hrec := ih (distProcessCluster clusters st i)
        (fun j hj => by rw [hstep.2.2.1]; exact hb j (List.mem_cons_of_mem i hj))
        hstep.1 h2t
        (fun n => by rw [hstep.2.1]; exact hcnt n)
      exact ⟨hrec.1, by rw [hrec.2, hstep.2.1]⟩

theorem distanceOptimization_master (orders : List Order) (drones : List Drone)
    (rnd : ℕ → ℕ) (hnodup : (orders.map (·.id)).Nodup)
    (hpend : ∀ o ∈ orders, o.status = OrderStatus.pending)
    (hempty : ∀ d ∈ drones, d.assignedOrders = []) :
    storedIds (distanceOptimization orders drones rnd).drones =
        assignedIds (distanceOptimization orders drones rnd).orders ∧
      idsOf (distanceOptimization orders drones rnd).orders = idsOf orders := by
  rcases Nat.eq_zero_or_pos drones.length with hd | hd
  · simp only [distanceOptimization, hd, Nat.min_zero, List.range_zero, List.foldl_nil]
    exact ⟨by
      show storedIds drones = assignedIds orders
      rw [storedIds_eq_zero drones hempty, assignedIds_of_pending orders hpend], trivial⟩
  · have hall : clustersIdsAll (clusterOrdersByDistance orders drones.length rnd) =
        idsOf orders := by
      rw [clustersIdsAll_eq, clusterOrders_contents orders drones.length rnd hd,
        Multiset.map_coe, ← idsOf_coe]
    have hinit2 : clustersIds (clusterOrdersByDistance orders drones.length rnd)
        (List.range (min (clusterOrdersByDistance orders drones.length rnd).length
          drones.length)) ≤ pendingIds orders := by
      rw [pendingIds_of_pending orders hpend, ← hall]
      exact clustersIds_range _ _ (Nat.min_le_left _ _)
    have h := distFold_master (clusterOrdersByDistance orders drones.length rnd)
      (List.range (min (clusterOrdersByDistance orders drones.length rnd).length
        drones.length))
      ⟨drones, [], orders⟩
      (fun i hi => lt_of_lt_of_le (List.mem_range.1 hi) (Nat.min_le_right _ _))
      (by
        show storedIds drones = assignedIds orders
        rw [storedIds_eq_zero drones hempty, assignedIds_of_pending orders hpend])
      hinit2
      (fun n => idsOf_count_le_one orders hnodup n)
    exact h

theorem applyStrategy_master (orders : List Order) (drones : List Drone)
    (strategy : Strategy) (rnd : ℕ → ℕ) (now : ℝ)
    (hnodup : (orders.map (·.id)).Nodup)
    (hpend : ∀ o ∈ orders, o.status = OrderStatus.pending)
    (hempty : ∀ d ∈ drones, d.assignedOrders = []) :
    storedIds (applyOptimizationStrategy orders drones strategy rnd now).drones =
        assignedIds (applyOptimizationStrategy orders drones strategy rnd now).orders ∧
      idsOf (applyOptimizationStrategy orders drones strategy rnd now).orders =
        idsOf orders := by
  cases strategy with
  | priority_first =>
      have hperm := sortLe_perm (fun a b => priorityFirstCmp now a b ≤ 0) orders
      have h := greedyAssignment_master
        (sortLe (fun a b => priorityFirstCmp now a b ≤ 0) orders) drones
        (fun o ho => hpend o (hperm.mem_iff.1 ho)) hempty
      exact ⟨h.1, h.2.trans (idsOf_perm _ _ hperm)⟩
  | balanced_optimization =>
      have hperm := sortLe_perm
        (fun a b => calculateBalancedScore b drones now ≤ calculateBalancedScore a drones now)
        orders
      have h := greedyAssignment_master
        (sortLe (fun a b =>
          calculateBalancedScore b drones now ≤ calculateBalancedScore a drones now) orders)
        drones (fun o ho => hpend o (hperm.mem_iff.1 ho)) hempty
      exact ⟨h.1, h.2.trans (idsOf_perm _ _ hperm)⟩
  | capacity_optimization =>
      exact capacityOptimization_master orders drones now hnodup hpend hempty
  | distance_optimization =>
      exact distanceOptimization_master orders drones rnd hnodup hpend hempty

theorem count_assignedIds_of_mem (l : List Order) (o : Order) (ho : o ∈ l)
    (hs : o.status = OrderStatus.assigned) : 1 ≤ (assignedIds l).count o.id := by
  induction l with
  | nil => cases ho
  | cons p t ih =>
      rw [assignedIds, Multiset.count_add]
      rcases List.mem_cons.1 ho with h | h
      · subst h
        rw [if_pos hs, Multiset.count_singleton_self]
        exact Nat.le_add_right 1 _
      · exact le_trans (ih h) le_add_self

/-- The back-pointer invariant maintained by `assignOrder`: every order stored
in a drone's `assignedOrders` has status `'assigned'` and `assignedDrone`
equal to that drone's id. -/
def backPtr (d : Drone) : Prop :=
  ∀ p ∈ d.assignedOrders,
    p.assignedDrone = some d.id ∧ p.status = OrderStatus.assigned

theorem assignOrder_backPtr (d : Drone) (o : Order) (h : backPtr d) :
    backPtr (assignOrder d o).2.1 := by
  rw [assignOrder]
  split
  · intro p hp
    rcases List.mem_append.1 hp with h1 | h1
    · exact h p h1
    · rcases List.mem_singleton.1 h1 with rfl
      exact ⟨rfl, rfl⟩
  · exact h

theorem backPtr_dummyDrone : backPtr dummyDrone := by
  intro p hp
  simp [dummyDrone] at hp

/-- C7: for every input of pending orders (with distinct ids) and idle,
initially-unloaded vehicles and every strategy, after the optimization pass
no order is assigned to more than one vehicle: every order whose status is
`'assigned'` appears in exactly one vehicle's `assignedOrders` (counting
multiplicity across all vehicles), every stored order's `assignedDrone`
field equals the id of the vehicle storing it, and no id is ever stored
twice within the pass. -/
theorem optimize_no_double_assignment (strategy : Strategy) (orders : List Order)
    (drones : List Drone) (rnd : ℕ → ℕ) (now : ℝ)
    (hnodup : (orders.map (·.id)).Nodup)
    (hpend : ∀ o ∈ orders, o.status = OrderStatus.pending)
    (hidle : ∀ d ∈ drones, d.status = DroneStatus.idle)
    (hempty : ∀ d ∈ drones, d.assignedOrders = []) :
    (∀ o ∈ (applyOptimizationStrategy orders drones strategy rnd now).orders,
        o.status = OrderStatus.assigned →
        (storedIds
          (applyOptimizationStrategy orders drones strategy rnd now).drones).count o.id
          = 1) ∧
      (∀ d ∈ (applyOptimizationStrategy orders drones strategy rnd now).drones,
        ∀ p ∈ d.assignedOrders,
          p.assignedDrone = some d.id ∧ p.status = OrderStatus.assigned) ∧
      (∀ n, (storedIds
        (applyOptimizationStrategy orders drones strategy rnd now).drones).count n ≤ 1) := by
  have hm := applyStrategy_master orders drones strategy rnd now hnodup hpend hempty
  have hcle : ∀ n, (storedIds
      (applyOptimizationStrategy orders drones strategy rnd now).drones).count n ≤ 1 := by
    intro n
    rw [hm.1]
    refine le_trans (Multiset.count_le_of_le n (assignedIds_le_idsOf _)) ?_
    rw [hm.2]
    exact idsOf_count_le_one orders hnodup n
  refine ⟨?_, ?_, hcle⟩
  · intro o ho hs
    refine le_antisymm (hcle o.id) ?_
    rw [hm.1]
    exact count_assignedIds_of_mem _ o ho hs
  · exact applyStrategy_drones_pred backPtr assignOrder_backPtr backPtr_dummyDrone
      orders drones strategy rnd now
      (fun d hd p hp => absurd hp (by rw [hempty d hd]; exact List.not_mem_nil p))

theorem optimize_no_double_assignment_witness :
    (([w10o].map (·.id)).Nodup ∧ (∀ o ∈ [w10o], o.status = OrderStatus.pending) ∧
        (∀ d ∈ [w10d], d.status = DroneStatus.idle) ∧
        (∀ d ∈ [w10d], d.assignedOrders = [])) ∧
      ((∀ o ∈ (applyOptimizationStrategy [w10o] [w10d] Strategy.priority_first
            (fun _ => 0) 0).orders,
          o.status = OrderStatus.assigned →
          (storedIds (applyOptimizationStrategy [w10o] [w10d] Strategy.priority_first
            (fun _ => 0) 0).drones).count o.id = 1) ∧
        (∀ d ∈ (applyOptimizationStrategy [w10o] [w10d] Strategy.priority_first
            (fun _ => 0) 0).drones,
          ∀ p ∈ d.assignedOrders,
            p.assignedDrone = some d.id ∧ p.status = OrderStatus.assigned) ∧
        (∀ n, (storedIds (applyOptimizationStrategy [w10o] [w10d] Strategy.priority_first
            (fun _ => 0) 0).drones).count n ≤ 1)) := by
  have h1 : (([w10o].map (·.id)) : List ℕ).Nodup := List.nodup_singleton _
  have h2 : ∀ o ∈ [w10o], o.status = OrderStatus.pending := by
    intro o ho
    rw [List.mem_singleton] at ho
    subst ho
    rfl
  have h3 : ∀ d ∈ [w10d], d.status = DroneStatus.idle := by
    intro d hd
    rw [List.mem_singleton] at hd
    subst hd
    rfl
  have h4 : ∀ d ∈ [w10d], d.assignedOrders = [] := by
    intro d hd
    rw [List.mem_singleton] at hd
    subst hd
    rfl
  exact ⟨⟨h1, h2, h3, h4⟩, optimize_no_double_assignment Strategy.priority_first
    [w10o] [w10d] (fun _ => 0) 0 h1 h2 h3 h4⟩
